import Mathlib

/-!
Verification of the tomatoesLand.SocketIo session server core against its
design document.  The development shallowly embeds the two source files
`sockets/games/agarIo.js` and `sockets/index.js`: JS numbers become an
inductive type over rationals with explicit NaN/Infinity values, JS `Map`
and plain objects become insertion-ordered association lists, `Set` becomes
a duplicate-free list, thrown `TypeError`s become `Except.error`, and every
socket emit is collected into an explicit event trace.

Two helpers referenced by `sockets/index.js` (`getGame` and
`ensureSingleEmptyRoom` from `utils/gameUtils.js`) are not part of the
repository snapshot; their definitions are modelled from the design
document and are marked as such in their doc comments.
-/

/-! ## JavaScript numbers

A JS number is either a finite value, `NaN`, `Infinity` or `-Infinity`.
The finite values this program produces are integral: spawn coordinates
are truncated with `~~`, and masses, movement steps, radii and speeds are
integer constants, so addition, subtraction, multiplication and every
comparison stay exactly representable in `ℤ` (IEEE rounding never fires on
them).  The two operations whose exact result leaves the integers —
`Math.sqrt` and the division by the direction length — take the function
to use on finite operands as a parameter, and every theorem below holds
for all choices of those parameters.  The special-value rows follow
IEEE-754 / ECMA-262. -/

inductive JSNum where
  | num : ℤ → JSNum
  | nan : JSNum
  | inf : JSNum
  | ninf : JSNum
deriving DecidableEq, Repr

/-- JS `+` on numbers. -/
def JSNum.add : JSNum → JSNum → JSNum
  | .nan, _ => .nan
  | _, .nan => .nan
  | .inf, .ninf => .nan
  | .ninf, .inf => .nan
  | .inf, _ => .inf
  | _, .inf => .inf
  | .ninf, _ => .ninf
  | _, .ninf => .ninf
  | .num a, .num b => .num (a + b)

/-- JS `-` on numbers. -/
def JSNum.sub : JSNum → JSNum → JSNum
  | .nan, _ => .nan
  | _, .nan => .nan
  | .inf, .inf => .nan
  | .ninf, .ninf => .nan
  | .inf, _ => .inf
  | _, .inf => .ninf
  | .ninf, _ => .ninf
  | _, .ninf => .inf
  | .num a, .num b => .num (a - b)

/-- JS `*` on numbers. -/
def JSNum.mul : JSNum → JSNum → JSNum
  | .nan, _ => .nan
  | _, .nan => .nan
  | .inf, .inf => .inf
  | .inf, .ninf => .ninf
  | .ninf, .inf => .ninf
  | .ninf, .ninf => .inf
  | .inf, .num b => if 0 < b then .inf else if b < 0 then .ninf else .nan
  | .num a, .inf => if 0 < a then .inf else if a < 0 then .ninf else .nan
  | .ninf, .num b => if 0 < b then .ninf else if b < 0 then .inf else .nan
  | .num a, .ninf => if 0 < a then .ninf else if a < 0 then .inf else .nan
  | .num a, .num b => .num (a * b)

/-- JS `/` on numbers, parametric in the division used on finite operands
(real division is not integral in general; no theorem depends on that
branch).  The model has no signed zero; `x / 0` takes the sign of `x`,
`0 / 0` is `NaN`. -/
def JSNum.div (fdiv : ℤ → ℤ → ℤ) : JSNum → JSNum → JSNum
  | .nan, _ => .nan
  | _, .nan => .nan
  | .inf, .inf => .nan
  | .inf, .ninf => .nan
  | .ninf, .inf => .nan
  | .ninf, .ninf => .nan
  | .inf, .num b => if b < 0 then .ninf else .inf
  | .ninf, .num b => if b < 0 then .inf else .ninf
  | .num _, .inf => .num 0
  | .num _, .ninf => .num 0
  | .num a, .num b =>
    if b = 0 then (if 0 < a then .inf else if a < 0 then .ninf else .nan)
    else .num (fdiv a b)

/-- JS `<` (any comparison with `NaN` is false). -/
def JSNum.ltb : JSNum → JSNum → Bool
  | .nan, _ => false
  | _, .nan => false
  | .num a, .num b => a < b
  | .num _, .inf => true
  | .num _, .ninf => false
  | .inf, _ => false
  | .ninf, .ninf => false
  | .ninf, _ => true

/-- JS `>` . -/
def JSNum.gtb (a b : JSNum) : Bool := JSNum.ltb b a

/-- JS `>=` (false whenever `NaN` is involved, hence not the negation of `<`). -/
def JSNum.geb : JSNum → JSNum → Bool
  | .nan, _ => false
  | _, .nan => false
  | .num a, .num b => b ≤ a
  | .num _, .inf => false
  | .num _, .ninf => true
  | .inf, _ => true
  | .ninf, .ninf => true
  | .ninf, _ => false

/-- JS strict equality `===` on numbers (`NaN === NaN` is false). -/
def JSNum.strictEqb : JSNum → JSNum → Bool
  | .nan, _ => false
  | _, .nan => false
  | a, b => decide (a = b)

/-- JS falsiness of a number: `NaN` and `0` are falsy. -/
def JSNum.falsy : JSNum → Bool
  | .nan => true
  | .num a => decide (a = 0)
  | _ => false

/-- `Math.sqrt`, parametric in its action on nonnegative finite values
(irrational in general; no theorem below depends on that branch).  The
special values follow ECMA-262: `sqrt(NaN) = NaN`, `sqrt(x) = NaN` for
`x < 0`, `sqrt(Infinity) = Infinity`. -/
def jsSqrt (fsqrt : ℤ → ℤ) : JSNum → JSNum
  | .nan => .nan
  | .inf => .inf
  | .ninf => .nan
  | .num q => if q < 0 then .nan else .num (fsqrt q)

/-- A JS payload value, as far as the handlers inspect one: a number, a
string, or anything else (collapsed to `undef`).  `typeof v === "number"`
is `isNumberVal`. -/
inductive JSVal where
  | num : JSNum → JSVal
  | str : String → JSVal
  | undef : JSVal
deriving DecidableEq, Repr

/-- `typeof v === "number"`. -/
def isNumberVal : JSVal → Bool
  | .num _ => true
  | _ => false

/-- The numeric content of a value already known to be a number. -/
def valNum : JSVal → JSNum
  | .num n => n
  | _ => .nan

/-- JS truthy-or-else on strings: `a || b` where the empty string is falsy
and `none` models `undefined`/`null`. -/
def jsOrStr (a : Option String) (b : String) : String :=
  match a with
  | none => b
  | some s => if s = "" then b else s

/-- JS falsiness of `room.winner` (`undefined`, `null` and `""` are falsy). -/
def winnerFalsy : Option String → Bool
  | none => true
  | some s => decide (s = "")

/-- `room.winner || null`. -/
def jsOrNull (w : Option String) : Option String :=
  if winnerFalsy w then none else w

/-! ## Insertion-ordered association lists

JS `Map` and plain objects keep string keys in insertion order; both are
modelled as association lists.  `updateAL` rewrites the first entry with
the given key (the entry `lookupAL` observes), `eraseAL` removes every
entry with the key, `setAL` is `Map.prototype.set` (update in place if
present, else append). -/

/-- First value stored under a key. -/
def lookupAL {α : Type} (l : List (String × α)) (k : String) : Option α :=
  (l.find? (fun p => p.1 = k)).map (·.2)

/-- Replace the value of the first entry with key `k`. -/
def updateAL {α : Type} : List (String × α) → String → α → List (String × α)
  | [], _, _ => []
  | p :: rest, k, v => if p.1 = k then (k, v) :: rest else p :: updateAL rest k v

/-- Remove every entry with key `k`. -/
def eraseAL {α : Type} (l : List (String × α)) (k : String) : List (String × α) :=
  l.filter (fun p => p.1 ≠ k)

/-- `Map.prototype.set`: update in place when the key is present, append
otherwise. -/
def setAL {α : Type} (l : List (String × α)) (k : String) (v : α) : List (String × α) :=
  if l.any (fun p => p.1 = k) then updateAL l k v else l ++ [(k, v)]

/-- `Set.prototype.add` on an insertion-ordered duplicate-free list. -/
def addSet (l : List String) (s : String) : List String :=
  if s ∈ l then l else l ++ [s]

/-- The keys of an association list. -/
def keysAL {α : Type} (l : List (String × α)) : List String := l.map (·.1)

/-! ## The data model

`Player` is the in-game player object built by `startAgarIoRoom`;
`RoomPlayer` is the lobby roster entry pushed by the `joinRoom` handler.
`Room` carries both the lobby fields and the session fields; the session
fields are `Option`s because a lobby room that was never started leaves
them `undefined` — reading them then is a `TypeError`, modelled as
`Except.error ()`.

`Bullet.recId` is a ghost field naming the record's object identity (its
allocation index inside the session); it is assigned once at allocation
and survives recycling, exactly as a JS object's identity does.  Likewise
`Room.allocCount` counts the bullet records ever allocated for the
session.  Neither exists as data in the source; they only make object
identity speakable. -/

structure Player where
  socketId : String
  userName : String
  x : JSNum
  y : JSNum
  mass : JSNum
  isDead : Bool
  lastDx : JSNum
  lastDy : JSNum
deriving DecidableEq, Repr

structure RoomPlayer where
  socketId : String
  userName : String
  isReady : Bool
deriving DecidableEq, Repr

structure Bullet where
  recId : Nat
  id : Nat
  ownerId : String
  x : JSNum
  y : JSNum
  vx : JSNum
  vy : JSNum
  radius : JSNum
  traveled : JSNum
  rangeLimit : JSNum
  type : String
  speed : JSNum
deriving DecidableEq, Repr

structure Room where
  id : String
  players : List RoomPlayer
  playersMap : Option (List (String × Player))
  alivePlayers : Option (List String)
  bullets : Option (List Bullet)
  bulletPool : Option (List Bullet)
  bulletIdCounter : Nat
  allocCount : Nat
  simulationInterval : Option Nat
  broadcastInterval : Option Nat
  winner : Option String
deriving DecidableEq, Repr

structure Game where
  id : String
  rooms : List (String × Room)
  activeRooms : List (String × Room)
deriving DecidableEq, Repr

/-- The master games object: `games[gameId] = {rooms, activeRooms, ...}`. -/
abbrev Games := List (String × Game)

/-- The shape of one entry of `playersData` in `gameStateUpdate`. -/
structure PlayerSnapshot where
  socketId : String
  userName : String
  x : JSNum
  y : JSNum
  mass : JSNum
deriving DecidableEq, Repr

/-- The shape of one entry of `bulletsData` in `gameStateUpdate`. -/
structure BulletSnapshot where
  id : Nat
  ownerId : String
  x : JSNum
  y : JSNum
  radius : JSNum
deriving DecidableEq, Repr

/-- Every socket emission the modelled handlers perform.  `roomsList`
stands for the room-list broadcast done by `broadcastRooms` (a
`utils/gameUtils` helper outside the snapshot, modelled from the design
document as a single lobby broadcast event). -/
inductive Event where
  | gameEnded (roomId : String) (winner : Option String)
  | bulletCreated (channel : String) (b : Bullet)
  | gameStateUpdate (roomId : String) (players : List PlayerSnapshot)
      (bullets : List BulletSnapshot) (winner : Option String)
  | roomsList (gameId : String)
deriving DecidableEq, Repr

/-- Number of `gameEnded` events in a trace. -/
def countGameEnded (evs : List Event) : Nat :=
  (evs.filter (fun e => match e with | .gameEnded _ _ => true | _ => false)).length

/-- Whether a trace contains a `gameEnded` event. -/
def hasGameEnded (evs : List Event) : Bool :=
  evs.any (fun e => match e with | .gameEnded _ _ => true | _ => false)

/-- The projectile ids carried by the `bulletCreated` events of a trace, in
emission order. -/
def bulletCreatedIds (evs : List Event) : List Nat :=
  evs.filterMap (fun e => match e with | .bulletCreated _ b => some b.id | _ => none)

/-! ## `sockets/games/agarIo.js` -/

/-- Dimensions of the world. -/
def WORLD_WIDTH : JSNum := .num 1080

def WORLD_HEIGHT : JSNum := .num 1080

/-- The fast ternary clamp of the source. -/
def clamp (value minV maxV : JSNum) : JSNum :=
  if value.ltb minV then minV else if value.gtb maxV then maxV else value

/-- `startAgarIoRoom`: initialize `playersMap`/`alivePlayers` from the
roster, reset the bullet structures, clear stale intervals, start the two
loops and null the winner.  `spawnPos` supplies the outcome of the two
truncated `Math.random()` spawn draws for each player (`~~` makes them
integers); the interval handles are opaque, so the two fresh handles are
modelled as `1` and `2`. -/
def startAgarIoRoom (spawnPos : String → ℤ × ℤ) (room : Room) : Room :=
  let init := room.players.foldl
    (fun (acc : List (String × Player) × List String) p =>
      (setAL acc.1 p.socketId
        { socketId := p.socketId, userName := p.userName,
          x := .num (spawnPos p.socketId).1, y := .num (spawnPos p.socketId).2,
          mass := .num 10, isDead := false, lastDx := .num 0, lastDy := .num 0 },
       addSet acc.2 p.socketId))
    ([], [])
  { room with
    playersMap := some init.1
    alivePlayers := some init.2
    bullets := some []
    bulletIdCounter := 1
    bulletPool := some []
    allocCount := 0
    simulationInterval := some 1
    broadcastInterval := some 2
    winner := none }

/-- The per-player projection of `broadcastGameState`. -/
def playerSnap (p : Player) : PlayerSnapshot :=
  { socketId := p.socketId, userName := p.userName, x := p.x, y := p.y,
    mass := p.mass }

/-- The per-bullet projection of `broadcastGameState`. -/
def bulletSnap (b : Bullet) : BulletSnapshot :=
  { id := b.id, ownerId := b.ownerId, x := b.x, y := b.y, radius := b.radius }

/-- `Array.from(room.alivePlayers).map(...)` of `broadcastGameState`: the
callback runs once per alive id in order, and its reads of
`room.playersMap.get(socketId)` throw as soon as the map is `undefined` or
the id is absent (the snapshot entry dereferences the result). -/
def mapPlayersData (pm? : Option (List (String × Player))) :
    List String → Except Unit (List PlayerSnapshot)
  | [] => .ok []
  | sid :: rest =>
    match pm? with
    | none => .error ()
    | some pm =>
      match lookupAL pm sid with
      | none => .error ()
      | some p => do
        let tail ← mapPlayersData pm? rest
        .ok (playerSnap p :: tail)

/-- `broadcastGameState`: serialize the alive players and live bullets into
a `gameStateUpdate` emission.  On a room whose session was never started,
`Array.from(room.alivePlayers)` (respectively `room.playersMap.get` or
`room.bullets.map`) throws a `TypeError`, modelled as `Except.error ()`.
The function reads the room and emits; it returns no room, reflecting that
it never mutates session state. -/
def broadcastGameState (roomId : String) (room : Room) : Except Unit (List Event) := do
  let alive ← match room.alivePlayers with
    | none => .error ()
    | some a => .ok a
  let playersData ← mapPlayersData room.playersMap alive
  let bulletsData ← match room.bullets with
    | none => .error ()
    | some bs => .ok (bs.map bulletSnap)
  .ok [Event.gameStateUpdate roomId playersData bulletsData (jsOrNull room.winner)]

/-- The eight-direction switch of `handlePlayerMove` (`step = 4`); any
other direction string falls to the default branch. -/
def moveDelta (direction : String) : JSNum × JSNum :=
  if direction = "up-left" then (.num (-4), .num (-4))
  else if direction = "up-right" then (.num 4, .num (-4))
  else if direction = "down-left" then (.num (-4), .num 4)
  else if direction = "down-right" then (.num 4, .num 4)
  else if direction = "up" then (.num 0, .num (-4))
  else if direction = "down" then (.num 0, .num 4)
  else if direction = "left" then (.num (-4), .num 0)
  else if direction = "right" then (.num 4, .num 0)
  else (.num 0, .num 0)

/-- The body of `handlePlayerMove` once the room is resolved: look the
player up in `room.playersMap` (a `TypeError` when that map is
`undefined`, i.e. the room was never started), drop the event if the
player is missing or dead, otherwise move and clamp. -/
def handlePlayerMoveBody (room : Room) (sid : String) (direction : String) :
    Except Unit Room :=
  match room.playersMap with
  | none => .error ()
  | some pm =>
    match lookupAL pm sid with
    | none => .ok room
    | some player =>
      if player.isDead then .ok room
      else
        let d := moveDelta direction
        let moved := { player with
          x := clamp (player.x.add d.1) (.num 0) WORLD_WIDTH
          y := clamp (player.y.add d.2) (.num 0) WORLD_HEIGHT
          lastDx := if !d.1.falsy || !d.2.falsy then d.1 else player.lastDx
          lastDy := if !d.1.falsy || !d.2.falsy then d.2 else player.lastDy }
        .ok { room with playersMap := some (updateAL pm sid moved) }

/-- `const room = game.activeRooms[roomId] || game.rooms[roomId]`, also
reporting which of the two maps the room came from. -/
def resolveRoom (game : Game) (roomId : String) : Option (Bool × Room) :=
  match lookupAL game.activeRooms roomId with
  | some r => some (true, r)
  | none => (lookupAL game.rooms roomId).map (fun r => (false, r))

/-- Write a room back to whichever map it was resolved from. -/
def putRoom (game : Game) (inActive : Bool) (roomId : String) (r : Room) : Game :=
  if inActive then { game with activeRooms := updateAL game.activeRooms roomId r }
  else { game with rooms := updateAL game.rooms roomId r }

/-- `handlePlayerMove` at the `games` level: silently return when the game
or the room is unknown, else run the body and store the mutation. -/
def handlePlayerMove (games : Games) (gameId roomId sid : String)
    (direction : String) : Except Unit Games :=
  match lookupAL games gameId with
  | none => .ok games
  | some game =>
    match resolveRoom game roomId with
    | none => .ok games
    | some (inActive, room) => do
      let room' ← handlePlayerMoveBody room sid direction
      .ok (updateAL games gameId (putRoom game inActive roomId room'))

/-- The validation gate of `handleShootBullet`: drop the event when
`direction` is missing, either component is not of number type (`typeof`
does not look at finiteness, so `NaN` and `±Infinity` pass), or
`bulletType` is not one of the two known kinds. -/
def shootInvalid (bulletType : String) (direction : Option (JSVal × JSVal)) : Bool :=
  match direction with
  | none => true
  | some d =>
    !isNumberVal d.1 || !isNumberVal d.2 ||
      !(decide (bulletType = "charged") || decide (bulletType = "fullyCharged"))

/-- The per-kind parameter switch of `handleShootBullet`:
`(speedValue, radius, rangeLimit)`. -/
def bulletTypeParams : String → Option (JSNum × JSNum × JSNum)
  | "fullyCharged" => some (.num 30, .num 25, .inf)
  | "charged" => some (.num 30, .num 5, .inf)
  | _ => none

/-- The body of `handleShootBullet` once the room is resolved: validate,
normalize the direction, obtain a record from the pool (`pop`, i.e. the
last element) or allocate a fresh one, stamp it with the next id, append
it to the live list and emit `bulletCreated`. -/
def handleShootBulletBody (fsqrt : ℤ → ℤ) (fdiv : ℤ → ℤ → ℤ) (channel : String)
    (room : Room) (sid : String) (bulletType : String)
    (direction : Option (JSVal × JSVal)) :
    Except Unit (Room × List Event) :=
  match room.playersMap with
  | none => .error ()
  | some pm =>
    match lookupAL pm sid with
    | none => .ok (room, [])
    | some player =>
      if player.isDead then .ok (room, [])
      else if shootInvalid bulletType direction then .ok (room, [])
      else
        match bulletTypeParams bulletType with
        | none => .ok (room, [])
        | some params =>
          let speedValue := params.1
          let radius := params.2.1
          let rangeLimit := params.2.2
          let dx := valNum ((direction.map (·.1)).getD .undef)
          let dy := valNum ((direction.map (·.2)).getD .undef)
          let sq := jsSqrt fsqrt ((dx.mul dx).add (dy.mul dy))
          let len := if sq.falsy then JSNum.num 1 else sq
          let vx := (dx.div fdiv len).mul speedValue
          let vy := (dy.div fdiv len).mul speedValue
          match room.bullets, room.bulletPool with
          | some bullets, some pool =>
            let acq : Bullet × List Bullet × Nat :=
              match pool.getLast? with
              | some b =>
                ({ b with
                   id := room.bulletIdCounter
                   ownerId := player.socketId
                   x := player.x
                   y := player.y
                   vx := vx
                   vy := vy
                   radius := radius
                   traveled := .num 0
                   rangeLimit := rangeLimit
                   type := bulletType
                   speed := speedValue },
                 pool.dropLast, room.allocCount)
              | none =>
                ({ recId := room.allocCount
                   id := room.bulletIdCounter
                   ownerId := player.socketId
                   x := player.x
                   y := player.y
                   vx := vx
                   vy := vy
                   radius := radius
                   traveled := .num 0
                   rangeLimit := rangeLimit
                   type := bulletType
                   speed := speedValue },
                 pool, room.allocCount + 1)
            .ok ({ room with
                    bullets := some (bullets ++ [acq.1])
                    bulletPool := some acq.2.1
                    bulletIdCounter := room.bulletIdCounter + 1
                    allocCount := acq.2.2 },
                 [Event.bulletCreated channel acq.1])
          | _, _ => .error ()

/-- `handleShootBullet` at the `games` level. -/
def handleShootBullet (fsqrt : ℤ → ℤ) (fdiv : ℤ → ℤ → ℤ) (games : Games)
    (gameId roomId sid : String) (bulletType : String)
    (direction : Option (JSVal × JSVal)) : Except Unit (Games × List Event) :=
  match lookupAL games gameId with
  | none => .ok (games, [])
  | some game =>
    match resolveRoom game roomId with
    | none => .ok (games, [])
    | some (inActive, room) => do
      let res ← handleShootBulletBody fsqrt fdiv (game.id ++ "-" ++ room.id) room sid
        bulletType direction
      .ok (updateAL games gameId (putRoom game inActive roomId res.1), res.2)

/-- The retirement test of `updateBullets`, applied after the advance:
out of world bounds, or past a finite range limit. -/
def bulletOut (b : Bullet) : Bool :=
  b.x.ltb (.num 0) || b.x.gtb WORLD_WIDTH || b.y.ltb (.num 0) ||
    b.y.gtb WORLD_HEIGHT ||
    (!(b.rangeLimit.strictEqb .inf) && b.traveled.geb b.rangeLimit)

/-- The collision test of `updateBullets` for one player: skip the owner
and the dead, fire when the squared center distance is below the squared
sum of bullet radius and player mass. -/
def collidesB (b : Bullet) (p : Player) : Bool :=
  !(decide (p.socketId = b.ownerId)) && !p.isDead &&
    (((b.x.sub p.x).mul (b.x.sub p.x)).add
      ((b.y.sub p.y).mul (b.y.sub p.y))).ltb
      ((b.radius.add p.mass).mul (b.radius.add p.mass))

/-- Accumulated outcome of the bullet loop: the mutated players map and
alive set, the surviving bullets in processing order, the bullets pushed
to the pool in push order, and the ids of the bullets processed, in
processing order. -/
structure TickResult where
  pm : List (String × Player)
  alive : List String
  kept : List Bullet
  pooled : List Bullet
  trace : List Nat
deriving DecidableEq, Repr

/-- The bullet loop of `updateBullets`.  The source iterates the array
from the last index down to `0`, splicing as it goes; the caller therefore
passes `room.bullets.reverse`, and this function processes its argument
front to back: advance, retire on `bulletOut`, otherwise kill at most the
first colliding player (`Map` iteration order). -/
def runBullets (pm : List (String × Player)) (alive : List String) :
    List Bullet → TickResult
  | [] => { pm := pm, alive := alive, kept := [], pooled := [], trace := [] }
  | b :: rest =>
    let b' := { b with
                x := b.x.add b.vx
                y := b.y.add b.vy
                traveled := b.traveled.add b.speed }
    if bulletOut b' then
      let r := runBullets pm alive rest
      { r with pooled := b' :: r.pooled, trace := b'.id :: r.trace }
    else
      match pm.findIdx? (fun kv => collidesB b' kv.2) with
      | none =>
        let r := runBullets pm alive rest
        { r with kept := b' :: r.kept, trace := b'.id :: r.trace }
      | some i =>
        match pm[i]? with
        | none =>
          let r := runBullets pm alive rest
          { r with kept := b' :: r.kept, trace := b'.id :: r.trace }
        | some kv =>
          let r := runBullets (pm.set i (kv.1, { kv.2 with isDead := true }))
            (alive.erase kv.2.socketId) rest
          { r with pooled := b' :: r.pooled, trace := b'.id :: r.trace }

/-- The per-player reset performed by `endAgarIoRoom`
(`player.isDead = false; player.mass = 10`). -/
def resetPlayerEntry (kv : String × Player) : String × Player :=
  (kv.1, { kv.2 with isDead := false, mass := .num 10 })

/-- `endAgarIoRoom`: clear both intervals, drain the live bullets into the
pool, reset every player's alive flag and mass, remove the room from
`activeRooms`, and emit `gameEnded` — the emission is unconditional, it
happens on every call. -/
def endAgarIoRoom (game : Game) (room : Room) :
    Except Unit (Game × Room × List Event) := do
  let room := { room with simulationInterval := none, broadcastInterval := none }
  let room ← match room.bullets with
    | none => .ok room
    | some bs =>
      if bs.isEmpty then .ok { room with bullets := some [] }
      else match room.bulletPool with
        | none => .error ()
        | some pool =>
          .ok { room with bulletPool := some (pool ++ bs), bullets := some [] }
  let room := match room.playersMap with
    | none => room
    | some pm => { room with playersMap := some (pm.map resetPlayerEntry) }
  let game := { game with activeRooms := eraseAL game.activeRooms room.id }
  .ok (game, room, [Event.gameEnded room.id room.winner])

/-- `updateBullets`: guard on `room.bullets`/`room.playersMap`, run the
bullet loop, then evaluate the win condition once — when at most one
player is alive and no winner is recorded yet, record the sole survivor's
user name (or `null` when nobody is left) and call `endAgarIoRoom`.  A
room holding bullets but missing its alive set or pool would throw inside
the loop; that is modelled as an error. -/
def updateBullets (game : Game) (room : Room) :
    Except Unit (Game × Room × List Event) :=
  match room.bullets, room.playersMap with
  | none, _ => .ok (game, room, [])
  | some _, none => .ok (game, room, [])
  | some bs, some pm =>
    match room.alivePlayers, room.bulletPool with
    | some alive, some pool =>
      let res := runBullets pm alive bs.reverse
      let room' := { room with
        playersMap := some res.pm
        alivePlayers := some res.alive
        bullets := some res.kept.reverse
        bulletPool := some (pool ++ res.pooled) }
      if res.alive.length ≤ 1 && winnerFalsy room.winner then
        let room'' :=
          if res.alive.length = 1 then
            { room' with winner :=
                (res.alive.head?.bind (lookupAL res.pm)).map (·.userName) }
          else { room' with winner := none }
        endAgarIoRoom game room''
      else .ok (game, room', [])
    | _, _ => .error ()

/-! ## `sockets/index.js` — in-game handlers and the registry -/

/-- Modelled from the spec: `getGame` (from `utils/gameUtils.js`, which is
not in the snapshot) returns the state of a GameType, "created on first
reference" with empty room and session maps. -/
def getGame (games : Games) (gameId : String) : Games × Game :=
  match lookupAL games gameId with
  | some g => (games, g)
  | none =>
    let g : Game := { id := gameId, rooms := [], activeRooms := [] }
    (games ++ [(gameId, g)], g)

/-- The `requestGameState` handler: resolve the room in `activeRooms`
first, then in the lobby rooms, and hand it to `broadcastGameState`;
silently return when it is nowhere. -/
def requestGameState (games : Games) (gameId roomId : String) :
    Except Unit (Games × List Event) :=
  let gg := getGame games gameId
  match lookupAL gg.2.activeRooms roomId with
  | some room => (broadcastGameState roomId room).map (fun evs => (gg.1, evs))
  | none =>
    match lookupAL gg.2.rooms roomId with
    | some room => (broadcastGameState roomId room).map (fun evs => (gg.1, evs))
    | none => .ok (gg.1, [])

/-- The `endGame` handler: only rooms found in `activeRooms` reach
`endAgarIoRoom`. -/
def endGameHandler (games : Games) (gameId roomId : String) :
    Except Unit (Games × List Event) :=
  let gg := getGame games gameId
  match lookupAL gg.2.activeRooms roomId with
  | none => .ok (gg.1, [])
  | some room => do
    let res ← endAgarIoRoom gg.2 room
    .ok (updateAL gg.1 gameId res.1, res.2.2)

/-- Modelled from the spec: a room as created by the registry's
"ensure empty room" routine (`utils/gameUtils.js`, not in the snapshot) —
an id and an empty roster, none of the session fields initialized. -/
def mkEmptyRoom (rid : String) : Room :=
  { id := rid, players := [], playersMap := none, alivePlayers := none,
    bullets := none, bulletPool := none, bulletIdCounter := 0, allocCount := 0,
    simulationInterval := none, broadcastInterval := none, winner := none }

/-- Modelled from the spec: `ensureSingleEmptyRoom` (from
`utils/gameUtils.js`, not in the snapshot) "guarantees at least one
zero-occupancy room exists, creating one with a fresh id if none does;
idempotent".  Fresh ids are drawn from the supply `f` at index `k`. -/
def ensureSingleEmptyRoom (f : Nat → String) (k : Nat) (g : Game) : Game × Nat :=
  if g.rooms.any (fun p => p.2.players.isEmpty) then (g, k)
  else ({ g with rooms := g.rooms ++ [(f k, mkEmptyRoom (f k))] }, k + 1)

/-- The `joinRoom` handler body on one GameType: ignore an unknown room,
ignore a duplicate join, else append the player (with the
`userName || socket.userName || "Unknown"` fallback chain) and, when this
is the first occupant, re-run `ensureSingleEmptyRoom`. -/
def joinRoom (f : Nat → String) (k : Nat) (sid : String)
    (userName sockUserName : Option String) (roomId : String) (g : Game) :
    Game × Nat :=
  match lookupAL g.rooms roomId with
  | none => (g, k)
  | some room =>
    if room.players.any (fun p => p.socketId = sid) then (g, k)
    else
      let room' := { room with players := room.players ++
        [{ socketId := sid, userName := jsOrStr userName (jsOrStr sockUserName "Unknown"),
           isReady := false }] }
      let g' := { g with rooms := updateAL g.rooms roomId room' }
      if room'.players.length = 1 then ensureSingleEmptyRoom f k g' else (g', k)

/-- The `leaveRoom` handler body on one GameType: filter the player out,
then delete the room only when it is now empty and more than one empty
room exists.  The deleted rooms (with their value at deletion time) are
also returned, to make the deletion guard speakable. -/
def leaveRoom (sid roomId : String) (g : Game) : Game × List (String × Room) :=
  match lookupAL g.rooms roomId with
  | none => (g, [])
  | some room =>
    let room' := { room with players := room.players.filter (fun p => p.socketId ≠ sid) }
    let g' := { g with rooms := updateAL g.rooms roomId room' }
    let emptyCount : Nat := (g'.rooms.filter (fun p => p.2.players.isEmpty)).length
    if room'.players.isEmpty && decide (1 < emptyCount) then
      ({ g' with rooms := eraseAL g'.rooms roomId }, [(roomId, room')])
    else (g', [])

/-- One step of the disconnect handler's lobby scan, for one room id of the
snapshot taken by `Object.entries`: splice the player out if present, and
if the room is now empty while more than one empty room exists, delete it
and re-run `ensureSingleEmptyRoom`. -/
def disconnectLobbyStep (f : Nat → String) (sid : String)
    (st : Game × Nat × List (String × Room)) (roomId : String) :
    Game × Nat × List (String × Room) :=
  let g := st.1
  match lookupAL g.rooms roomId with
  | none => st
  | some room =>
    match room.players.findIdx? (fun p => p.socketId = sid) with
    | none => st
    | some i =>
      let room' := { room with players := room.players.eraseIdx i }
      let g' := { g with rooms := updateAL g.rooms roomId room' }
      let emptyCount : Nat := (g'.rooms.filter (fun p => p.2.players.isEmpty)).length
      if room'.players.isEmpty && decide (1 < emptyCount) then
        let gk := ensureSingleEmptyRoom f st.2.1
          { g' with rooms := eraseAL g'.rooms roomId }
        (gk.1, gk.2, st.2.2 ++ [(roomId, room')])
      else (g', st.2.1, st.2.2)

/-- The lobby branch of the disconnect handler on one GameType: scan the
snapshot of room ids and run `disconnectLobbyStep` on each. -/
def disconnectLobby (f : Nat → String) (k : Nat) (sid : String) (g : Game) :
    Game × Nat × List (String × Room) :=
  (g.rooms.map (·.1)).foldl (disconnectLobbyStep f sid) (g, k, [])

/-- One registry mutation of the lobby, as named by the design document:
a join, a leave, or a disconnect-driven removal (room deletions only
happen inside the latter two). -/
inductive RegOp where
  | join (sid : String) (userName sockUserName : Option String) (roomId : String)
  | leave (sid roomId : String)
  | disconnect (sid : String)

/-- Apply a registry mutation, returning the new GameType state, the next
fresh-id index, and the rooms deleted by the mutation. -/
def applyRegOp (f : Nat → String) (k : Nat) (g : Game) :
    RegOp → Game × Nat × List (String × Room)
  | .join sid userName sockUserName roomId =>
    let r := joinRoom f k sid userName sockUserName roomId g
    (r.1, r.2, [])
  | .leave sid roomId =>
    let r := leaveRoom sid roomId g
    (r.1, k, r.2)
  | .disconnect sid => disconnectLobby f k sid g

/-- Whether a GameType currently has a room with zero occupants. -/
def anyEmptyRoom (g : Game) : Bool :=
  g.rooms.any (fun p => p.2.players.isEmpty)

/-- One step of the disconnect handler's active-room scan, for one room id
of the snapshot: splice the player out if present; when the room becomes
empty, delete it outright and broadcast the room list — no interval is
cleared, no `gameEnded` is emitted, `playersMap` and `alivePlayers` are
untouched.  Deleted rooms are returned with their value at unlink time
(the JS object the still-running timers keep referencing). -/
def disconnectActiveStep (sid : String)
    (st : Game × List (String × Room) × List Event) (roomId : String) :
    Game × List (String × Room) × List Event :=
  let g := st.1
  match lookupAL g.activeRooms roomId with
  | none => st
  | some room =>
    match room.players.findIdx? (fun p => p.socketId = sid) with
    | none => st
    | some i =>
      let room' := { room with players := room.players.eraseIdx i }
      if room'.players.isEmpty then
        ({ g with activeRooms := eraseAL g.activeRooms roomId },
         st.2.1 ++ [(roomId, room')], st.2.2 ++ [Event.roomsList g.id])
      else
        ({ g with activeRooms := updateAL g.activeRooms roomId room' },
         st.2.1, st.2.2)

/-- The active-room branch of the disconnect handler on one GameType. -/
def disconnectActive (sid : String) (g : Game) :
    Game × List (String × Room) × List Event :=
  (g.activeRooms.map (·.1)).foldl (disconnectActiveStep sid) (g, [], [])

/-! ## Session runs

`SessOp` enumerates the operations that touch one session's state between
its start and its teardown; `runSessOps` runs a sequence of them,
collecting the event trace.  `tick` is one firing of the simulation
interval, `endRoom` an explicit end request reaching `endAgarIoRoom`. -/

inductive SessOp where
  | move (sid : String) (direction : String)
  | shoot (sid : String) (bulletType : String) (direction : Option (JSVal × JSVal))
  | tick
  | endRoom

/-- Apply one session operation to a game/room pair. -/
def applySessOp (fsqrt : ℤ → ℤ) (fdiv : ℤ → ℤ → ℤ) (game : Game) (room : Room) :
    SessOp → Except Unit (Game × Room × List Event)
  | .move sid direction => do
    let room' ← handlePlayerMoveBody room sid direction
    .ok (game, room', [])
  | .shoot sid bulletType direction => do
    let res ← handleShootBulletBody fsqrt fdiv (game.id ++ "-" ++ room.id) room sid
      bulletType direction
    .ok (game, res.1, res.2)
  | .tick => updateBullets game room
  | .endRoom => endAgarIoRoom game room

/-- Run a sequence of session operations, concatenating the event traces. -/
def runSessOps (fsqrt : ℤ → ℤ) (fdiv : ℤ → ℤ → ℤ) (game : Game) (room : Room) :
    List SessOp → Except Unit (Game × Room × List Event)
  | [] => .ok (game, room, [])
  | op :: rest => do
    let r1 ← applySessOp fsqrt fdiv game room op
    let r2 ← runSessOps fsqrt fdiv r1.1 r1.2.1 rest
    .ok (r2.1, r2.2.1, r1.2.2 ++ r2.2.2)

/-- Conservation of bullet records: the records in the live list and the
pool together are exactly the records ever allocated for the session, each
present exactly once (their ghost identities enumerate
`[0, allocCount)`). -/
def bulletConserved (room : Room) : Prop :=
  match room.bullets, room.bulletPool with
  | some bs, some pool =>
    ((bs ++ pool).map Bullet.recId).Perm (List.range room.allocCount)
  | _, _ => True

instance (room : Room) : Decidable (bulletConserved room) := by
  unfold bulletConserved
  cases room.bullets <;> cases room.bulletPool <;> dsimp <;> infer_instance

instance {ε α : Type} [DecidableEq ε] [DecidableEq α] : DecidableEq (Except ε α) :=
  fun a b =>
    match a, b with
    | .error e, .error e' =>
      if h : e = e' then .isTrue (by rw [h])
      else .isFalse (fun hc => h (Except.error.inj hc))
    | .ok x, .ok y =>
      if h : x = y then .isTrue (by rw [h])
      else .isFalse (fun hc => h (Except.ok.inj hc))
    | .error _, .ok _ => .isFalse (fun hc => Except.noConfusion hc)
    | .ok _, .error _ => .isFalse (fun hc => Except.noConfusion hc)

/-- The order in which one firing of the simulation interval visits the
live projectiles — the trace of the loop exactly as `updateBullets` enters
it (empty when the tick's guard bails out). -/
def tickProcessingOrder (room : Room) : List Nat :=
  match room.bullets, room.playersMap, room.alivePlayers with
  | some bs, some pm, some alive => (runBullets pm alive bs.reverse).trace
  | _, _, _ => []

/-! ## Concrete fixtures

A small two-player session used by the witnesses and counterexamples. -/

def fxRoster : List RoomPlayer :=
  [{ socketId := "s1", userName := "Alice", isReady := true },
   { socketId := "s2", userName := "Bob", isReady := true }]

def fxLobby : Room := { mkEmptyRoom "r1" with players := fxRoster }

/-- The session obtained by starting `fxLobby`, both players spawning at
`(100, 100)`. -/
def fxStarted : Room := startAgarIoRoom (fun _ => (100, 100)) fxLobby

def fxGame : Game :=
  { id := "1", rooms := [("r2", mkEmptyRoom "r2")], activeRooms := [("r1", fxStarted)] }

def fxGames : Games := [("1", fxGame)]

/-- A live bullet fired by `s1`, sitting at `(100, 100)` and moving right. -/
def fxBullet1 : Bullet :=
  { recId := 0, id := 1, ownerId := "s1", x := .num 100, y := .num 100,
    vx := .num 30, vy := .num 0, radius := .num 5, traveled := .num 0,
    rangeLimit := .inf, type := "charged", speed := .num 30 }

def fxBullet2 : Bullet := { fxBullet1 with recId := 1, id := 2 }

/-- The fixture session carrying two live bullets, appended in id order. -/
def fxTickRoom : Room :=
  { fxStarted with
    bullets := some [fxBullet1, fxBullet2]
    bulletIdCounter := 3
    allocCount := 2 }

/-- A session whose roster is just `s1`, as left right after `start`. -/
def fxSolo : Room :=
  startAgarIoRoom (fun _ => (100, 100))
    { mkEmptyRoom "r9" with players := fxRoster.take 1 }

/-- A one-shot run of the fixture session. -/
def fxShootOps : List SessOp :=
  [SessOp.shoot "s1" "charged" (some (.num (.num 1), .num (.num 0)))]

def fxShootResult : Game × Room × List Event :=
  match runSessOps (fun q => q) (fun a b => a / b) fxGame fxStarted fxShootOps with
  | .ok t => t
  | .error _ => (fxGame, fxStarted, [])

/-- A shoot, one tick, then an explicit end, from the fixture session. -/
def fxC9Ops : List SessOp :=
  [SessOp.shoot "s1" "charged" (some (.num (.num 1), .num (.num 0))),
   SessOp.tick, SessOp.endRoom]

def fxC9Result : Game × Room × List Event :=
  match runSessOps (fun q => q) (fun a b => a / b) fxGame fxStarted fxC9Ops with
  | .ok t => t
  | .error _ => (fxGame, fxStarted, [])

/-- A deterministic supply of fresh room ids for the registry fixtures:
`n` maps to the string of `n + 1` letters `f`. -/
def fxFresh (n : Nat) : String := String.mk (List.replicate (n + 1) 'f')

/-- A lobby room of the registry fixture occupied by `s1`. -/
def fxRegRoomA : Room :=
  { mkEmptyRoom "ra" with
    players := [{ socketId := "s1", userName := "Alice", isReady := false }] }

/-- The registry fixture: one occupied lobby room and two empty ones. -/
def fxReg : Game :=
  { id := "g",
    rooms := [("ra", fxRegRoomA), ("rb", mkEmptyRoom "rb"), ("rc", mkEmptyRoom "rc")],
    activeRooms := [] }

/-! ## Claim conclusions

Each `CnPost` names the conclusion of claim `Cn`'s theorem, so the
witnesses can state the instantiated conclusion without re-spelling it. -/

/-- C1's amended conclusion: the first teardown cancels both periodic
tasks and unlinks the session; a second teardown is a state fixpoint (same
game and room come back, nothing left scheduled) but re-emits `gameEnded`,
so the two calls together emit exactly two such events. -/
def C1Post (g : Game) (r : Room) : Prop :=
  ∃ g1 r1 e1 e2,
    endAgarIoRoom g r = .ok (g1, r1, e1) ∧
    endAgarIoRoom g1 r1 = .ok (g1, r1, e2) ∧
    countGameEnded (e1 ++ e2) = 2 ∧
    countGameEnded e1 = 1 ∧
    r1.simulationInterval = none ∧ r1.broadcastInterval = none ∧
    lookupAL g1.activeRooms r.id = none

/-- C4's amended conclusion, quantified over one move and one shoot event
aimed at `gameId`/`roomId`: a missing game, a missing room, or (in a room
whose session was started) an unknown or dead player is silently dropped
by both handlers — no state change, no emission; but when the room
resolves to a lobby room whose session was never started (`playersMap`
still `undefined`) both handlers throw instead. -/
def C4Post (fsqrt : ℤ → ℤ) (fdiv : ℤ → ℤ → ℤ) (games : Games)
    (gameId roomId sid direction : String)
    (bulletType : String) (dir : Option (JSVal × JSVal)) : Prop :=
  (lookupAL games gameId = none →
    handlePlayerMove games gameId roomId sid direction = .ok games ∧
    handleShootBullet fsqrt fdiv games gameId roomId sid bulletType dir = .ok (games, [])) ∧
  (∀ game, lookupAL games gameId = some game → resolveRoom game roomId = none →
    handlePlayerMove games gameId roomId sid direction = .ok games ∧
    handleShootBullet fsqrt fdiv games gameId roomId sid bulletType dir = .ok (games, [])) ∧
  (∀ game p pm, lookupAL games gameId = some game →
    resolveRoom game roomId = some p → p.2.playersMap = some pm →
    (lookupAL pm sid = none ∨ ∃ pl, lookupAL pm sid = some pl ∧ pl.isDead = true) →
    handlePlayerMove games gameId roomId sid direction = .ok games ∧
    handleShootBullet fsqrt fdiv games gameId roomId sid bulletType dir = .ok (games, [])) ∧
  (∀ game p, lookupAL games gameId = some game → resolveRoom game roomId = some p →
    p.2.playersMap = none →
    handlePlayerMove games gameId roomId sid direction = .error () ∧
    handleShootBullet fsqrt fdiv games gameId roomId sid bulletType dir = .error ())

/-- C5's amended conclusion: on a room whose session fields exist (any
started session, players or none), `broadcastGameState` returns — without
touching the room — exactly one well-formed snapshot event: one player
entry per alive id, the projection of every live bullet, and the
null-normalized winner; and the `requestGameState` path to an active room
delivers exactly that snapshot. -/
def C5Post (roomId : String) (room : Room) (bs : List Bullet)
    (alive : List String) : Prop :=
  ∃ pd,
    broadcastGameState roomId room =
      .ok [Event.gameStateUpdate roomId pd (bs.map bulletSnap) (jsOrNull room.winner)] ∧
    pd.length = alive.length ∧
    (∀ games gameId,
      lookupAL (getGame games gameId).2.activeRooms roomId = some room →
      requestGameState games gameId roomId =
        .ok ((getGame games gameId).1,
          [Event.gameStateUpdate roomId pd (bs.map bulletSnap) (jsOrNull room.winner)]))

/-- C6's amended conclusion: with the session started, `handleShootBullet`
drops the event exactly when the shooter is unknown or dead or the
`shootInvalid` gate fires; the gate rejects a missing direction, a
component whose `typeof` is not number, and an unknown kind — but lets any
numeric component through, `NaN` and `±Infinity` included, in which case a
projectile is appended and announced. -/
def C6Post (fsqrt : ℤ → ℤ) (fdiv : ℤ → ℤ → ℤ) (channel : String) (room : Room)
    (pm : List (String × Player)) (bl : List Bullet) (sid : String)
    (bulletType : String) (dir : Option (JSVal × JSVal)) : Prop :=
  (lookupAL pm sid = none →
    handleShootBulletBody fsqrt fdiv channel room sid bulletType dir = .ok (room, [])) ∧
  (∀ p, lookupAL pm sid = some p → p.isDead = true →
    handleShootBulletBody fsqrt fdiv channel room sid bulletType dir = .ok (room, [])) ∧
  (∀ p, lookupAL pm sid = some p → p.isDead = false → shootInvalid bulletType dir = true →
    handleShootBulletBody fsqrt fdiv channel room sid bulletType dir = .ok (room, [])) ∧
  (∀ p, lookupAL pm sid = some p → p.isDead = false → shootInvalid bulletType dir = false →
    ∃ b r', handleShootBulletBody fsqrt fdiv channel room sid bulletType dir =
        .ok (r', [Event.bulletCreated channel b]) ∧
      r'.bullets = some (bl ++ [b]) ∧ b.id = room.bulletIdCounter) ∧
  (∀ nx ny, dir = some (.num nx, .num ny) →
    (bulletType = "charged" ∨ bulletType = "fullyCharged") →
    shootInvalid bulletType dir = false)

/-- C7's amended conclusion: the loop of one simulation tick visits every
live projectile exactly once, in reverse insertion order — the most
recently appended bullet first. -/
def C7Post (room : Room) (bs : List Bullet) (pm : List (String × Player))
    (alive : List String) (l : List Bullet) : Prop :=
  tickProcessingOrder room = (bs.map Bullet.id).reverse ∧
  (runBullets pm alive l).trace = l.map Bullet.id

/-- The winner the tick's win check records: with exactly one id left
alive, that player's user name (`null` if the id is somehow absent from
the map); with zero left, `null`. -/
def tickWinner (res : TickResult) : Option String :=
  if res.alive.length = 1 then
    (res.alive.head?.bind (lookupAL res.pm)).map Player.userName
  else none

/-- C3's conclusion: one tick of `updateBullets` first runs the bullet
loop; then the win condition is evaluated exactly once — when more than
one player remains or a winner is already recorded nothing further
happens (no event, winner untouched), otherwise the survivor's name (or
none when nobody is left — in particular when the last two players died
this very tick) is recorded and teardown runs, emitting exactly one
`gameEnded` event carrying that winner. -/
def C3Post (g : Game) (room : Room) (bs : List Bullet)
    (pm : List (String × Player)) (alive : List String) (pool : List Bullet) : Prop :=
  (¬((runBullets pm alive bs.reverse).alive.length ≤ 1 ∧
      winnerFalsy room.winner = true) →
    updateBullets g room = .ok
      (g,
       { room with
         playersMap := some (runBullets pm alive bs.reverse).pm
         alivePlayers := some (runBullets pm alive bs.reverse).alive
         bullets := some (runBullets pm alive bs.reverse).kept.reverse
         bulletPool := some (pool ++ (runBullets pm alive bs.reverse).pooled) },
       [])) ∧
  ((runBullets pm alive bs.reverse).alive.length ≤ 1 →
    winnerFalsy room.winner = true →
    ∃ g' r',
      updateBullets g room = .ok
        (g', r',
         [Event.gameEnded room.id (tickWinner (runBullets pm alive bs.reverse))]) ∧
      r'.winner = tickWinner (runBullets pm alive bs.reverse) ∧
      r'.simulationInterval = none ∧ r'.broadcastInterval = none ∧
      lookupAL g'.activeRooms room.id = none) ∧
  ((runBullets pm alive bs.reverse).alive = [] →
    winnerFalsy room.winner = true →
    ∃ g' r',
      updateBullets g room = .ok (g', r', [Event.gameEnded room.id none]) ∧
      r'.winner = none)

/-- C8's conclusion: along any successful run of session operations, the
`bulletCreated` ids are strictly increasing (each new projectile id is
larger than everything issued before, so an id is never reused), and any
single accepted shot — pool hit or fresh allocation alike — stamps the
appended record with the current counter and bumps the counter. -/
def C8Post (fsqrt : ℤ → ℤ) (fdiv : ℤ → ℤ → ℤ) (room : Room)
    (t : Game × Room × List Event) : Prop :=
  (room.bulletIdCounter ≤ t.2.1.bulletIdCounter ∧
   (∀ i ∈ bulletCreatedIds t.2.2,
      room.bulletIdCounter ≤ i ∧ i < t.2.1.bulletIdCounter) ∧
   List.Chain' (· < ·) (bulletCreatedIds t.2.2)) ∧
  (∀ channel r2 sid bt dir r3 b,
    handleShootBulletBody fsqrt fdiv channel r2 sid bt dir =
      .ok (r3, [Event.bulletCreated channel b]) →
    b.id = r2.bulletIdCounter ∧ r3.bulletIdCounter = r2.bulletIdCounter + 1 ∧
    (∀ pool b0, r2.bulletPool = some pool → pool.getLast? = some b0 →
      b.recId = b0.recId))

/-- C9's conclusion: after any successful run from a freshly started
session, the records in the live list and the pool are exactly the records
ever allocated, each once; hence whenever the live list is drained (as
teardown does) the pool holds one record per allocation — and an accepted
shot with a nonempty pool allocates nothing, reusing the last pooled
record (under a fresh id). -/
def C9Post (fsqrt : ℤ → ℤ) (fdiv : ℤ → ℤ → ℤ)
    (t : Game × Room × List Event) : Prop :=
  bulletConserved t.2.1 ∧
  (∀ pl, t.2.1.bullets = some [] → t.2.1.bulletPool = some pl →
    pl.length = t.2.1.allocCount) ∧
  (∀ channel r2 sid bt dir r3 evs pool b0,
    r2.bulletPool = some pool → pool.getLast? = some b0 →
    handleShootBulletBody fsqrt fdiv channel r2 sid bt dir = .ok (r3, evs) →
    r3.allocCount = r2.allocCount ∧
    (∀ b, evs = [Event.bulletCreated channel b] → b.recId = b0.recId))

/-- C2's conclusion: after the registry mutation, at least one lobby room
with zero occupants exists, and every room the mutation deleted was empty
at deletion time, is gone from the resulting room map, and some other
empty room (a different id) remains. -/
def C2Post (f : Nat → String) (k : Nat) (g : Game) (op : RegOp) : Prop :=
  anyEmptyRoom (applyRegOp f k g op).1 = true ∧
  ∀ d ∈ (applyRegOp f k g op).2.2, d.2.players = [] ∧
    d.1 ∉ keysAL (applyRegOp f k g op).1.rooms ∧
    ∃ e ∈ (applyRegOp f k g op).1.rooms, e.2.players = [] ∧ e.1 ≠ d.1

/-- Invariant threaded through the disconnect handler's lobby scan: some
room is empty, room keys are distinct, every key is an original key (a
member of `K`) or a fresh id already drawn from the supply, and every room
deleted so far was empty at deletion time, is absent from the current
registry, and carried an original key. -/
def lobbyInv (f : Nat → String) (K : List String)
    (st : Game × Nat × List (String × Room)) : Prop :=
  anyEmptyRoom st.1 = true ∧
  (keysAL st.1.rooms).Nodup ∧
  (∀ key ∈ keysAL st.1.rooms, key ∈ K ∨ ∃ n, n < st.2.1 ∧ key = f n) ∧
  ∀ d ∈ st.2.2, d.2.players = [] ∧ d.1 ∉ keysAL st.1.rooms ∧ d.1 ∈ K

/-- C10's conclusion: the active-room branch of the disconnect handler
never emits `gameEnded` and never touches the lobby rooms; for each active
room the player occupies, only the `players` array is spliced — when it
stays nonempty the room survives with every other field (in particular
`playersMap`, `alivePlayers` and both interval handles) untouched, and
when it becomes empty the entry is deleted outright while the unlinked
room object still carries its untouched map, alive set and both running
interval handles (so the simulation keeps counting the disconnected
player as alive). -/
def C10Post (g : Game) (sid : String) : Prop :=
  (disconnectActive sid g).1.rooms = g.rooms ∧
  (disconnectActive sid g).1.id = g.id ∧
  hasGameEnded (disconnectActive sid g).2.2 = false ∧
  ∀ roomId r, lookupAL g.activeRooms roomId = some r →
    (r.players.findIdx? (fun p => p.socketId = sid) = none →
      lookupAL (disconnectActive sid g).1.activeRooms roomId = some r) ∧
    (∀ i, r.players.findIdx? (fun p => p.socketId = sid) = some i →
      (r.players.eraseIdx i ≠ [] →
        lookupAL (disconnectActive sid g).1.activeRooms roomId =
          some { r with players := r.players.eraseIdx i }) ∧
      (r.players.eraseIdx i = [] →
        lookupAL (disconnectActive sid g).1.activeRooms roomId = none ∧
        (roomId, { r with players := r.players.eraseIdx i }) ∈
          (disconnectActive sid g).2.1 ∧
        ({ r with players := r.players.eraseIdx i } : Room).playersMap =
          r.playersMap ∧
        ({ r with players := r.players.eraseIdx i } : Room).alivePlayers =
          r.alivePlayers ∧
        ({ r with players := r.players.eraseIdx i } : Room).simulationInterval =
          r.simulationInterval ∧
        ({ r with players := r.players.eraseIdx i } : Room).broadcastInterval =
          r.broadcastInterval))

/-! ## Association-list lemmas -/

theorem lookupAL_eraseAL_self {α : Type} (l : List (String × α)) (k : String) :
    lookupAL (eraseAL l k) k = none := by
  induction l with
  | nil => rfl
  | cons p rest ih =>
    by_cases h : p.1 = k
    · simpa [eraseAL, h] using ih
    · simpa [eraseAL, lookupAL, h] using ih

theorem eraseAL_idem {α : Type} (l : List (String × α)) (k : String) :
    eraseAL (eraseAL l k) k = eraseAL l k := by
  simp [eraseAL, List.filter_filter]

theorem resetPlayerEntry_idem (kv : String × Player) :
    resetPlayerEntry (resetPlayerEntry kv) = resetPlayerEntry kv := rfl

theorem map_resetPlayerEntry_idem (pm : List (String × Player)) :
    (pm.map resetPlayerEntry).map resetPlayerEntry = pm.map resetPlayerEntry := by
  induction pm with
  | nil => rfl
  | cons kv rest ih => simp [ih, resetPlayerEntry_idem]

/-! ## The teardown equation -/

/-- What one call of `endAgarIoRoom` computes on a room whose session
fields exist. -/
theorem endAgarIoRoom_eq (g : Game) (r : Room) (bs pool : List Bullet)
    (pm : List (String × Player)) (hb : r.bullets = some bs)
    (hp : r.bulletPool = some pool) (hm : r.playersMap = some pm) :
    endAgarIoRoom g r = .ok
      ({ g with activeRooms := eraseAL g.activeRooms r.id },
       { r with
         simulationInterval := none
         broadcastInterval := none
         bullets := some []
         bulletPool := some (pool ++ bs)
         playersMap := some (pm.map resetPlayerEntry) },
       [Event.gameEnded r.id r.winner]) := by
  rcases r with ⟨rid, rps, rpm, ral, rb, rbp, rcnt, rall, rsi, rbi, rwin⟩
  simp only at hb hp hm
  subst hb; subst hp; subst hm
  cases bs with
  | nil => simp [endAgarIoRoom, Bind.bind, Except.bind]
  | cons b rest => rfl

/-- C1: "Ending a session is idempotent: for every session, calling the end
operation (endAgarIoRoom) a second time after it has already run is a no-op
— over the two calls exactly one session-ended (gameEnded) event is
emitted, and after them neither periodic task is still scheduled."  This is
false at the fixture session: `endAgarIoRoom` emits `gameEnded`
unconditionally, so two calls emit two events. -/
theorem C1_counterexample :
    (do
      let r1 ← endAgarIoRoom fxGame fxStarted
      let r2 ← endAgarIoRoom r1.1 r1.2.1
      pure (countGameEnded (r1.2.2 ++ r2.2.2)) : Except Unit Nat) = .ok 2 := by
  decide

/-- C1 (amended): ending a session twice leaves no dangling periodic task
and the second call changes no state (the same game and room come back),
but each call emits one `gameEnded` event, so the two calls emit exactly
two rather than one. -/
theorem C1_amended (g : Game) (r : Room) (bs pool : List Bullet)
    (pm : List (String × Player)) (hb : r.bullets = some bs)
    (hp : r.bulletPool = some pool) (hm : r.playersMap = some pm) :
    C1Post g r := by
  refine ⟨{ g with activeRooms := eraseAL g.activeRooms r.id },
          { r with
            simulationInterval := none
            broadcastInterval := none
            bullets := some []
            bulletPool := some (pool ++ bs)
            playersMap := some (pm.map resetPlayerEntry) },
          [Event.gameEnded r.id r.winner], [Event.gameEnded r.id r.winner],
          endAgarIoRoom_eq g r bs pool pm hb hp hm, ?_, rfl, rfl, rfl, rfl, ?_⟩
  · have h2 := endAgarIoRoom_eq
      { g with activeRooms := eraseAL g.activeRooms r.id }
      { r with
        simulationInterval := none
        broadcastInterval := none
        bullets := some []
        bulletPool := some (pool ++ bs)
        playersMap := some (pm.map resetPlayerEntry) }
      [] (pool ++ bs) (pm.map resetPlayerEntry) rfl rfl rfl
    simpa [eraseAL_idem, map_resetPlayerEntry_idem] using h2
  · exact lookupAL_eraseAL_self g.activeRooms r.id

/-- C1 witness: the amended statement holds at the fixture session. -/
theorem C1_witness : C1Post fxGame fxStarted :=
  C1_amended fxGame fxStarted [] [] (fxStarted.playersMap.getD [])
    (by rfl) (by rfl) (by rfl)

/-! ## The tick visits each projectile once, newest first -/

theorem runBullets_trace (pm : List (String × Player)) (alive : List String)
    (l : List Bullet) : (runBullets pm alive l).trace = l.map Bullet.id := by
  induction l generalizing pm alive with
  | nil => rfl
  | cons b rest ih =>
    simp only [runBullets]
    split
    · simp [ih]
    · split
      · simp [ih]
      · split <;> simp [ih]

/-- C7: "Within one simulation tick, live projectiles are processed in
insertion order: the tick visits them first-inserted first."  False at the
fixture room: the source iterates the array from its last index down, so
the bullet appended second (id 2) is visited before the one appended first
(id 1). -/
theorem C7_counterexample :
    tickProcessingOrder fxTickRoom = [2, 1] ∧
    (fxTickRoom.bullets.getD []).map Bullet.id = [1, 2] ∧
    tickProcessingOrder fxTickRoom ≠ (fxTickRoom.bullets.getD []).map Bullet.id := by
  refine ⟨by decide, by decide, by decide⟩

/-- C7 (amended): within one simulation tick every live projectile is
visited exactly once, in reverse insertion order — the most recently
appended projectile first. -/
theorem C7_amended (room : Room) (bs : List Bullet) (pm : List (String × Player))
    (alive : List String) (l : List Bullet) (h1 : room.bullets = some bs)
    (h2 : room.playersMap = some pm) (h3 : room.alivePlayers = some alive) :
    C7Post room bs pm alive l := by
  constructor
  · simp [tickProcessingOrder, h1, h2, h3, runBullets_trace, List.map_reverse]
  · exact runBullets_trace pm alive l

/-- C7 witness: the amended statement holds at the two-bullet fixture. -/
theorem C7_witness :
    C7Post fxTickRoom [fxBullet1, fxBullet2] (fxStarted.playersMap.getD [])
      (fxStarted.alivePlayers.getD []) [] :=
  C7_amended fxTickRoom [fxBullet1, fxBullet2] (fxStarted.playersMap.getD [])
    (fxStarted.alivePlayers.getD []) [] (by rfl) (by rfl) (by rfl)

/-! ## Lookup/update lemmas for the handler wrappers -/

theorem lookupAL_cons {α : Type} (p : String × α) (rest : List (String × α))
    (k : String) :
    lookupAL (p :: rest) k = if p.1 = k then some p.2 else lookupAL rest k := by
  by_cases h : p.1 = k
  · simp [lookupAL, List.find?_cons_of_pos, h]
  · simp only [lookupAL, h, if_false]
    rw [List.find?_cons_of_neg]
    simpa using h

theorem updateAL_self {α : Type} (l : List (String × α)) (k : String) (v : α)
    (h : lookupAL l k = some v) : updateAL l k v = l := by
  induction l with
  | nil => simp [lookupAL] at h
  | cons p rest ih =>
    rw [lookupAL_cons] at h
    by_cases hk : p.1 = k
    · rw [if_pos hk] at h
      have h2 : p.2 = v := Option.some.inj h
      have hp : p = (k, v) := Prod.ext hk h2
      simp [updateAL, hk, hp]
    · rw [if_neg hk] at h
      simp [updateAL, hk, ih h]

theorem putRoom_self (game : Game) (roomId : String) (tf : Bool) (room : Room)
    (h : resolveRoom game roomId = some (tf, room)) :
    putRoom game tf roomId room = game := by
  unfold resolveRoom at h
  cases hl : lookupAL game.activeRooms roomId with
  | some r =>
    rw [hl] at h
    obtain ⟨h1, h2⟩ : tf = true ∧ room = r := by
      constructor <;> cases h <;> rfl
    subst h1; subst h2
    simp [putRoom, updateAL_self _ _ _ hl]
  | none =>
    rw [hl] at h
    cases hr : lookupAL game.rooms roomId with
    | some r =>
      rw [hr] at h
      obtain ⟨h1, h2⟩ : tf = false ∧ room = r := by
        constructor <;> cases h <;> rfl
      subst h1; subst h2
      simp [putRoom, updateAL_self _ _ _ hr]
    | none => rw [hr] at h; cases h

/-- C4: "For every move or shoot event whose referenced player is unknown,
or whose room/session does not exist, the handler silently drops the event
— no crash — including when the room id resolves to a lobby room whose
session has never been started."  False at the fixture: `"r2"` is a lobby
room whose session never started, and the move handler reads
`room.playersMap.get` off `undefined`, a TypeError. -/
theorem C4_counterexample :
    handlePlayerMove fxGames "1" "r2" "sX" "up" = .error () := by decide

/-- C4 (amended): a missing game, a missing room, or an unknown or dead
player in a room whose session was started is silently dropped by both
handlers with no state change and no emission; but a room that resolves to
a never-started lobby room (no `playersMap`) makes both handlers throw a
TypeError. -/
theorem C4_amended (fsqrt : ℤ → ℤ) (fdiv : ℤ → ℤ → ℤ) (games : Games)
    (gameId roomId sid direction bulletType : String)
    (dir : Option (JSVal × JSVal)) :
    C4Post fsqrt fdiv games gameId roomId sid direction bulletType dir := by
  refine ⟨?_, ?_, ?_, ?_⟩
  · intro h
    exact ⟨by simp [handlePlayerMove, h], by simp [handleShootBullet, h]⟩
  · intro game hg hr
    exact ⟨by simp [handlePlayerMove, hg, hr], by simp [handleShootBullet, hg, hr]⟩
  · intro game p pm hg hr hpm hplayer
    obtain ⟨inA, room⟩ := p
    replace hpm : room.playersMap = some pm := hpm
    have hput := putRoom_self game roomId inA room hr
    have hup := updateAL_self games gameId game hg
    rcases hplayer with hnone | ⟨pl, hpl, hdead⟩
    · constructor
      · simp [handlePlayerMove, hg, hr, handlePlayerMoveBody, hpm, hnone,
          Bind.bind, Except.bind, hput, hup]
      · simp [handleShootBullet, hg, hr, handleShootBulletBody, hpm, hnone,
          Bind.bind, Except.bind, hput, hup]
    · constructor
      · simp [handlePlayerMove, hg, hr, handlePlayerMoveBody, hpm, hpl, hdead,
          Bind.bind, Except.bind, hput, hup]
      · simp [handleShootBullet, hg, hr, handleShootBulletBody, hpm, hpl, hdead,
          Bind.bind, Except.bind, hput, hup]
  · intro game p hg hr hpm
    obtain ⟨inA, room⟩ := p
    replace hpm : room.playersMap = none := hpm
    constructor
    · simp [handlePlayerMove, hg, hr, handlePlayerMoveBody, hpm,
        Bind.bind, Except.bind]
    · simp [handleShootBullet, hg, hr, handleShootBulletBody, hpm,
        Bind.bind, Except.bind]

/-- C4 witness: the amended statement applied at the fixture, lobby-room
case — both handlers throw there. -/
theorem C4_witness :
    handlePlayerMove fxGames "1" "r2" "sX" "up" = .error () ∧
    handleShootBullet (fun q => q) (fun a b => a / b) fxGames "1" "r2" "sX"
      "charged" none = .error () :=
  (C4_amended (fun q => q) (fun a b => a / b) fxGames "1" "r2" "sX" "up"
    "charged" none).2.2.2 fxGame (false, mkEmptyRoom "r2")
    (by decide) (by decide) (by rfl)

/-! ## C5: the broadcast adapter -/

theorem mapPlayersData_ok (pm : List (String × Player)) (alive : List String)
    (h : ∀ sid ∈ alive, (lookupAL pm sid).isSome = true) :
    ∃ pd, mapPlayersData (some pm) alive = .ok pd ∧ pd.length = alive.length := by
  induction alive with
  | nil => exact ⟨[], rfl, rfl⟩
  | cons sid rest ih =>
    have hs := h sid (by simp)
    obtain ⟨p, hp⟩ := Option.isSome_iff_exists.mp hs
    obtain ⟨pd, hpd, hlen⟩ := ih (fun s hsm => h s (by simp [hsm]))
    refine ⟨playerSnap p :: pd, ?_, by simp [hlen]⟩
    simp [mapPlayersData, hp, hpd, Bind.bind, Except.bind]

/-- C5: "The broadcast adapter never crashes and produces a well-formed
snapshot for every room it can be invoked on, including a pre-session
lobby room reached via the request-state path."  False at the fixture:
`"r2"` is a never-started lobby room, `Array.from(room.alivePlayers)`
throws. -/
theorem C5_counterexample : requestGameState fxGames "1" "r2" = .error () := by
  decide

/-- C5 (amended): on any room whose session fields exist — any started
session, with or without players — `broadcastGameState` returns, without
touching the room, exactly one well-formed snapshot (one entry per alive
id, all live bullets projected, null-normalized winner), and the
`requestGameState` path to such an active room delivers exactly that; but
a pre-session lobby room (session fields still `undefined`) makes it
throw. -/
theorem C5_amended (roomId : String) (room : Room) (alive : List String)
    (pm : List (String × Player)) (bs : List Bullet)
    (ha : room.alivePlayers = some alive) (hm : room.playersMap = some pm)
    (hb : room.bullets = some bs)
    (hall : ∀ sid ∈ alive, (lookupAL pm sid).isSome = true) :
    C5Post roomId room bs alive := by
  obtain ⟨pd, hpd, hlen⟩ := mapPlayersData_ok pm alive hall
  have h1 : broadcastGameState roomId room =
      .ok [Event.gameStateUpdate roomId pd (bs.map bulletSnap) (jsOrNull room.winner)] := by
    rcases room with ⟨rid, rps, rpm, ral, rb, rbp, rcnt, rall, rsi, rbi, rwin⟩
    simp only at ha hm hb
    subst ha; subst hm; subst hb
    simp [broadcastGameState, Bind.bind, Except.bind, hpd]
  refine ⟨pd, h1, hlen, ?_⟩
  intro games gameId hact
  simp [requestGameState, hact, h1, Except.map]

/-- C5 witness: the amended statement at the fixture session. -/
theorem C5_witness : C5Post "r1" fxStarted [] ["s1", "s2"] :=
  C5_amended "r1" fxStarted ["s1", "s2"] (fxStarted.playersMap.getD []) []
    (by rfl) (by rfl) (by rfl) (by decide)

/-! ## C6: the shoot validation gate -/

theorem shootInvalid_false {bt : String} {dir : Option (JSVal × JSVal)}
    (h : shootInvalid bt dir = false) :
    ∃ d, dir = some d ∧ isNumberVal d.1 = true ∧ isNumberVal d.2 = true ∧
      (bt = "charged" ∨ bt = "fullyCharged") := by
  cases dir with
  | none => simp [shootInvalid] at h
  | some d =>
    simp [shootInvalid] at h
    refine ⟨d, rfl, h.1.1, h.1.2, ?_⟩
    by_cases hc : bt = "charged"
    · exact Or.inl hc
    · exact Or.inr (h.2 hc)

/-- C6: "spawnProjectile rejects the event with no state change whenever
the shooter is dead or unknown, the kind is unknown, or the direction is
not a finite 2D numeric vector (e.g. a component is NaN or infinite)."
False at the fixture: a direction with a `NaN` x-component passes the
`typeof`-only validation — a projectile is created and announced. -/
theorem C6_counterexample :
    (handleShootBulletBody (fun q => q) (fun a b => a / b) "1-r1" fxStarted "s1"
        "charged" (some (.num .nan, .num (.num 0)))).map
      (fun p => (p.2.length, (p.1.bullets.getD []).length)) = .ok (1, 1) := by
  decide

/-- C6 (amended): with the session started, the shoot handler drops the
event exactly when the shooter is unknown or dead, the direction is
missing, a direction component's `typeof` is not number, or the kind is
unknown; finiteness is never checked — `NaN`/`±Infinity` components pass
the gate and a projectile is appended and announced. -/
theorem C6_amended (fsqrt : ℤ → ℤ) (fdiv : ℤ → ℤ → ℤ) (channel : String)
    (room : Room) (pm : List (String × Player)) (bl pls : List Bullet)
    (sid bt : String) (dir : Option (JSVal × JSVal))
    (hm : room.playersMap = some pm) (hb : room.bullets = some bl)
    (hp : room.bulletPool = some pls) :
    C6Post fsqrt fdiv channel room pm bl sid bt dir := by
  refine ⟨?_, ?_, ?_, ?_, ?_⟩
  · intro hnone
    simp [handleShootBulletBody, hm, hnone]
  · intro p hps hdead
    simp [handleShootBulletBody, hm, hps, hdead]
  · intro p hps hdead hinv
    simp [handleShootBulletBody, hm, hps, hdead, hinv]
  · intro p hps hdead hinv
    obtain ⟨d, hdir, hn1, hn2, hkind⟩ := shootInvalid_false hinv
    subst hdir
    rcases hkind with hk | hk <;> subst hk <;> cases hgl : pls.getLast? <;>
      simp only [handleShootBulletBody, hm, hps, hdead, hinv, hb, hp, hgl,
        bulletTypeParams, Bool.false_eq_true, if_false] <;>
      exact ⟨_, _, rfl, rfl, rfl⟩
  · intro nx ny hdir hkind
    subst hdir
    rcases hkind with hk | hk <;> subst hk <;> simp [shootInvalid, isNumberVal]

/-- C6 witness: the amended statement at the fixture session with a `NaN`
direction component. -/
theorem C6_witness :
    C6Post (fun q => q) (fun a b => a / b) "1-r1" fxStarted
      (fxStarted.playersMap.getD []) [] "s1" "charged"
      (some (.num .nan, .num (.num 0))) :=
  C6_amended (fun q => q) (fun a b => a / b) "1-r1" fxStarted
    (fxStarted.playersMap.getD []) [] [] "s1" "charged"
    (some (.num .nan, .num (.num 0))) (by rfl) (by rfl) (by rfl)

/-! ## C3: the win check -/

/-- C3: "In every simulation tick, after all projectiles are processed,
the win condition is evaluated exactly once: if at most one player is
alive and no winner is recorded, the sole survivor (or no winner at all,
in particular when the last two died in the same tick) is recorded and
teardown is invoked."  Confirmed: `updateBullets` behaves exactly so. -/
theorem C3_theorem (g : Game) (room : Room) (bs : List Bullet)
    (pm : List (String × Player)) (alive : List String) (pool : List Bullet)
    (hb : room.bullets = some bs) (hm : room.playersMap = some pm)
    (ha : room.alivePlayers = some alive) (hp : room.bulletPool = some pool) :
    C3Post g room bs pm alive pool := by
  rcases room with ⟨rid, rps, rpm, ral, rb, rbp, rcnt, rall, rsi, rbi, rwin⟩
  simp only at hb hm ha hp
  subst hb; subst hm; subst ha; subst hp
  have h2 : ((runBullets pm alive bs.reverse).alive.length ≤ 1 →
      winnerFalsy rwin = true →
      ∃ g' r',
        updateBullets g
            { id := rid, players := rps, playersMap := some pm,
              alivePlayers := some alive, bullets := some bs,
              bulletPool := some pool, bulletIdCounter := rcnt,
              allocCount := rall, simulationInterval := rsi,
              broadcastInterval := rbi, winner := rwin } = .ok
          (g', r',
           [Event.gameEnded rid (tickWinner (runBullets pm alive bs.reverse))]) ∧
        r'.winner = tickWinner (runBullets pm alive bs.reverse) ∧
        r'.simulationInterval = none ∧ r'.broadcastInterval = none ∧
        lookupAL g'.activeRooms rid = none) := by
    intro hlen hw
    simp only [updateBullets]
    rw [if_pos (by simp [hlen, hw])]
    by_cases hl1 : (runBullets pm alive bs.reverse).alive.length = 1
    · rw [if_pos hl1]
      have htw : tickWinner (runBullets pm alive bs.reverse) =
          ((runBullets pm alive bs.reverse).alive.head?.bind
            (lookupAL (runBullets pm alive bs.reverse).pm)).map Player.userName := by
        simp [tickWinner, hl1]
      rw [htw]
      exact ⟨_, _, endAgarIoRoom_eq _ _ _ _ _ rfl rfl rfl, rfl, rfl, rfl,
        lookupAL_eraseAL_self _ _⟩
    · rw [if_neg hl1]
      have htw : tickWinner (runBullets pm alive bs.reverse) = none := by
        simp [tickWinner, hl1]
      rw [htw]
      exact ⟨_, _, endAgarIoRoom_eq _ _ _ _ _ rfl rfl rfl, rfl, rfl, rfl,
        lookupAL_eraseAL_self _ _⟩
  refine ⟨?_, h2, ?_⟩
  · intro hcond
    simp only [updateBullets]
    rw [if_neg (by simpa [Decidable.not_and_iff_or_not] using hcond)]
  · intro hnil hw
    obtain ⟨g', r', heq, hwin, _, _, _⟩ := h2 (by simp [hnil]) hw
    have htw : tickWinner (runBullets pm alive bs.reverse) = none := by
      simp [tickWinner, hnil]
    rw [htw] at heq hwin
    exact ⟨g', r', heq, hwin⟩

/-- C3 witness: in the one-player fixture session a tick with no bullets
finds one survivor and records Alice as winner while tearing down. -/
theorem C3_witness :
    C3Post fxGame fxSolo [] (fxSolo.playersMap.getD [])
      (fxSolo.alivePlayers.getD []) [] :=
  C3_theorem fxGame fxSolo [] (fxSolo.playersMap.getD [])
    (fxSolo.alivePlayers.getD []) [] (by rfl) (by rfl) (by rfl) (by rfl)

/-! ## Shape lemmas for the session operations -/

theorem handlePlayerMoveBody_shape (room : Room) (sid direction : String)
    (r' : Room) (h : handlePlayerMoveBody room sid direction = .ok r') :
    r'.bullets = room.bullets ∧ r'.bulletPool = room.bulletPool ∧
    r'.bulletIdCounter = room.bulletIdCounter ∧
    r'.allocCount = room.allocCount := by
  unfold handlePlayerMoveBody at h
  repeat' split at h
  all_goals first
  | exact Except.noConfusion h
  | (cases h; exact ⟨rfl, rfl, rfl, rfl⟩)

theorem handleShootBulletBody_shape (fsqrt : ℤ → ℤ) (fdiv : ℤ → ℤ → ℤ)
    (channel : String) (room : Room) (sid bt : String)
    (dir : Option (JSVal × JSVal)) (r' : Room) (evs : List Event)
    (h : handleShootBulletBody fsqrt fdiv channel room sid bt dir = .ok (r', evs)) :
    (r' = room ∧ evs = []) ∨
    (∃ b bl pool,
      room.bullets = some bl ∧ room.bulletPool = some pool ∧
      evs = [Event.bulletCreated channel b] ∧
      b.id = room.bulletIdCounter ∧
      r'.bullets = some (bl ++ [b]) ∧
      r'.bulletPool = some pool.dropLast ∧
      r'.bulletIdCounter = room.bulletIdCounter + 1 ∧
      r'.winner = room.winner ∧
      r'.simulationInterval = room.simulationInterval ∧
      r'.broadcastInterval = room.broadcastInterval ∧
      (∀ b0, pool.getLast? = some b0 →
        b.recId = b0.recId ∧ r'.allocCount = room.allocCount) ∧
      (pool.getLast? = none →
        b.recId = room.allocCount ∧ r'.allocCount = room.allocCount + 1)) := by
  unfold handleShootBulletBody at h
  repeat' split at h
  all_goals first
  | exact Except.noConfusion h
  | (cases h; exact Or.inl ⟨rfl, rfl⟩)
  | skip
  case _ =>
    rename_i bullets0 pool0 hb0 hp0 x0 b0 hgl
    cases h
    refine Or.inr ⟨_, bullets0, pool0, hb0, hp0, rfl, ?_, ?_, ?_, ?_, ?_, ?_,
      ?_, ?_, ?_⟩
    · rfl
    · rfl
    · rfl
    · rfl
    · rfl
    · rfl
    · rfl
    · intro b1 hb1
      rw [hgl] at hb1
      cases hb1
      exact ⟨rfl, rfl⟩
    · intro hb1
      rw [hgl] at hb1
      cases hb1
  case _ =>
    rename_i bullets0 pool0 hb0 hp0 x0 hgl
    have hnil : pool0 = [] := by
      cases pool0 with
      | nil => rfl
      | cons a t => simp at hgl
    subst hnil
    cases h
    refine Or.inr ⟨_, bullets0, [], hb0, hp0, rfl, ?_, ?_, ?_, ?_, ?_, ?_,
      ?_, ?_, ?_⟩
    · rfl
    · rfl
    · rfl
    · rfl
    · rfl
    · rfl
    · rfl
    · intro b1 hb1
      exact Option.noConfusion hb1
    · intro hb1
      exact ⟨rfl, rfl⟩

theorem bulletConserved_congr (r r' : Room) (h1 : r'.bullets = r.bullets)
    (h2 : r'.bulletPool = r.bulletPool) (h3 : r'.allocCount = r.allocCount)
    (hc : bulletConserved r) : bulletConserved r' := by
  unfold bulletConserved at hc ⊢
  rw [h1, h2, h3]
  exact hc

theorem runBullets_conserved (pm : List (String × Player)) (alive : List String)
    (l : List Bullet) :
    (((runBullets pm alive l).kept ++ (runBullets pm alive l).pooled).map
      Bullet.recId).Perm (l.map Bullet.recId) := by
  induction l generalizing pm alive with
  | nil => simp [runBullets]
  | cons b rest ih =>
    simp only [runBullets]
    split
    · simp only [List.map_append, List.map_cons]
      refine List.Perm.trans List.perm_middle ?_
      rw [← List.map_append]
      exact (ih pm alive).cons _
    · split
      · simp only [List.cons_append, List.map_cons]
        exact (ih pm alive).cons _
      · split
        · simp only [List.cons_append, List.map_cons]
          exact (ih pm alive).cons _
        · simp only [List.map_append, List.map_cons]
          refine List.Perm.trans List.perm_middle ?_
          rw [← List.map_append]
          exact (ih _ _).cons _

theorem endAgarIoRoom_shape (g : Game) (r : Room) (t : Game × Room × List Event)
    (h : endAgarIoRoom g r = .ok t) :
    t.2.1.bulletIdCounter = r.bulletIdCounter ∧
    t.2.1.allocCount = r.allocCount ∧
    bulletCreatedIds t.2.2 = [] ∧
    (bulletConserved r → bulletConserved t.2.1) := by
  rcases r with ⟨rid, rps, rpm, ral, rb, rbp, rcnt, rall, rsi, rbi, rwin⟩
  cases rb with
  | none =>
    cases rpm <;> (cases h; exact ⟨rfl, rfl, rfl, fun hc => hc⟩)
  | some bs =>
    cases bs with
    | nil =>
      cases rpm <;> (cases h; exact ⟨rfl, rfl, rfl, fun hc => hc⟩)
    | cons b rest =>
      cases rbp with
      | none => cases rpm <;> exact Except.noConfusion h
      | some pool =>
        cases rpm <;>
          (cases h
           refine ⟨rfl, rfl, rfl, fun hc => ?_⟩
           unfold bulletConserved at hc ⊢
           refine List.Perm.trans ?_ hc
           refine List.Perm.map _ ?_
           simpa using List.perm_append_comm)

theorem updateBullets_shape (g : Game) (r : Room) (t : Game × Room × List Event)
    (h : updateBullets g r = .ok t) :
    t.2.1.bulletIdCounter = r.bulletIdCounter ∧
    t.2.1.allocCount = r.allocCount ∧
    bulletCreatedIds t.2.2 = [] ∧
    (bulletConserved r → bulletConserved t.2.1) := by
  rcases r with ⟨rid, rps, rpm, ral, rb, rbp, rcnt, rall, rsi, rbi, rwin⟩
  cases rb with
  | none => cases h; exact ⟨rfl, rfl, rfl, fun hc => hc⟩
  | some bs =>
    cases rpm with
    | none => cases h; exact ⟨rfl, rfl, rfl, fun hc => hc⟩
    | some pm =>
      cases ral with
      | none => cases rbp <;> exact Except.noConfusion h
      | some alive =>
        cases rbp with
        | none => exact Except.noConfusion h
        | some pool =>
          have hperm : (((runBullets pm alive bs.reverse).kept.reverse ++
              (pool ++ (runBullets pm alive bs.reverse).pooled)).map
                Bullet.recId).Perm ((bs ++ pool).map Bullet.recId) := by
            simp only [List.map_append, List.map_reverse]
            have h1 : (((runBullets pm alive bs.reverse).kept.map Bullet.recId).reverse ++
                (pool.map Bullet.recId ++
                  (runBullets pm alive bs.reverse).pooled.map Bullet.recId)).Perm
                ((runBullets pm alive bs.reverse).kept.map Bullet.recId ++
                  ((runBullets pm alive bs.reverse).pooled.map Bullet.recId ++
                    pool.map Bullet.recId)) :=
              List.Perm.append (List.reverse_perm _) List.perm_append_comm
            have h3 : (((runBullets pm alive bs.reverse).kept.map Bullet.recId ++
                (runBullets pm alive bs.reverse).pooled.map Bullet.recId) ++
                  pool.map Bullet.recId).Perm
                (bs.reverse.map Bullet.recId ++ pool.map Bullet.recId) := by
              refine List.Perm.append ?_ (List.Perm.refl _)
              simpa [List.map_append] using runBullets_conserved pm alive bs.reverse
            have h4 : (bs.reverse.map Bullet.recId ++ pool.map Bullet.recId).Perm
                (bs.map Bullet.recId ++ pool.map Bullet.recId) := by
              refine List.Perm.append ?_ (List.Perm.refl _)
              simpa [List.map_reverse] using List.reverse_perm (bs.map Bullet.recId)
            refine h1.trans ?_
            rw [← List.append_assoc]
            exact h3.trans h4
          have hmid : ∀ w : Option String, bulletConserved
              { id := rid, players := rps, playersMap := some pm,
                alivePlayers := some alive, bullets := some bs,
                bulletPool := some pool, bulletIdCounter := rcnt,
                allocCount := rall, simulationInterval := rsi,
                broadcastInterval := rbi, winner := rwin } →
              bulletConserved
                { id := rid, players := rps,
                  playersMap := some (runBullets pm alive bs.reverse).pm,
                  alivePlayers := some (runBullets pm alive bs.reverse).alive,
                  bullets := some (runBullets pm alive bs.reverse).kept.reverse,
                  bulletPool := some (pool ++ (runBullets pm alive bs.reverse).pooled),
                  bulletIdCounter := rcnt, allocCount := rall,
                  simulationInterval := rsi, broadcastInterval := rbi,
                  winner := w } := by
            intro w hc
            unfold bulletConserved at hc ⊢
            exact hperm.trans hc
          unfold updateBullets at h
          dsimp only at h
          split at h
          · split at h
            · have hs := endAgarIoRoom_shape _ _ _ h
              exact ⟨hs.1, hs.2.1, hs.2.2.1, fun hc => hs.2.2.2 (hmid _ hc)⟩
            · have hs := endAgarIoRoom_shape _ _ _ h
              exact ⟨hs.1, hs.2.1, hs.2.2.1, fun hc => hs.2.2.2 (hmid _ hc)⟩
          · cases h
            exact ⟨rfl, rfl, rfl, hmid rwin⟩

theorem dropLast_append_getLast? {α : Type} (l : List α) (a : α)
    (h : l.getLast? = some a) : l.dropLast ++ [a] = l := by
  induction l with
  | nil => cases h
  | cons x t ih =>
    cases t with
    | nil =>
      cases h
      rfl
    | cons y u =>
      rw [List.getLast?_cons_cons] at h
      simpa using ih h

theorem bulletCreatedIds_append (a b : List Event) :
    bulletCreatedIds (a ++ b) = bulletCreatedIds a ++ bulletCreatedIds b := by
  unfold bulletCreatedIds
  exact List.filterMap_append _ _ _

theorem applySessOp_ids (fsqrt : ℤ → ℤ) (fdiv : ℤ → ℤ → ℤ) (g : Game) (r : Room)
    (op : SessOp) (t : Game × Room × List Event)
    (h : applySessOp fsqrt fdiv g r op = .ok t) :
    (bulletCreatedIds t.2.2 = [] ∧ t.2.1.bulletIdCounter = r.bulletIdCounter) ∨
    (bulletCreatedIds t.2.2 = [r.bulletIdCounter] ∧
      t.2.1.bulletIdCounter = r.bulletIdCounter + 1) := by
  cases op with
  | move sid direction =>
    unfold applySessOp at h
    dsimp only at h
    cases hb : handlePlayerMoveBody r sid direction with
    | error e => rw [hb] at h; exact Except.noConfusion h
    | ok r' =>
      rw [hb] at h
      simp only [Bind.bind, Except.bind] at h
      cases h
      exact Or.inl ⟨rfl, (handlePlayerMoveBody_shape _ _ _ _ hb).2.2.1⟩
  | shoot sid bt dir =>
    unfold applySessOp at h
    dsimp only at h
    cases hb : handleShootBulletBody fsqrt fdiv (g.id ++ "-" ++ r.id) r sid bt dir with
    | error e => rw [hb] at h; exact Except.noConfusion h
    | ok res =>
      rw [hb] at h
      simp only [Bind.bind, Except.bind] at h
      cases h
      rcases handleShootBulletBody_shape fsqrt fdiv _ r sid bt dir res.1 res.2 hb with
        ⟨hr, he⟩ | ⟨b, bl, pool, h1, h2, he, hid, h5, h6, h7, h8, h9, h10, h11, h12⟩
      · exact Or.inl ⟨by simp [he, bulletCreatedIds], by rw [hr]⟩
      · exact Or.inr ⟨by simp [he, bulletCreatedIds, hid], h7⟩
  | tick =>
    exact Or.inl ⟨(updateBullets_shape _ _ _ h).2.2.1, (updateBullets_shape _ _ _ h).1⟩
  | endRoom =>
    exact Or.inl ⟨(endAgarIoRoom_shape _ _ _ h).2.2.1, (endAgarIoRoom_shape _ _ _ h).1⟩

theorem applySessOp_conserved (fsqrt : ℤ → ℤ) (fdiv : ℤ → ℤ → ℤ) (g : Game)
    (r : Room) (op : SessOp) (t : Game × Room × List Event)
    (h : applySessOp fsqrt fdiv g r op = .ok t) (hc : bulletConserved r) :
    bulletConserved t.2.1 := by
  cases op with
  | move sid direction =>
    unfold applySessOp at h
    dsimp only at h
    cases hb : handlePlayerMoveBody r sid direction with
    | error e => rw [hb] at h; exact Except.noConfusion h
    | ok r' =>
      rw [hb] at h
      simp only [Bind.bind, Except.bind] at h
      cases h
      obtain ⟨h1, h2, h3, h4⟩ := handlePlayerMoveBody_shape _ _ _ _ hb
      exact bulletConserved_congr _ _ h1 h2 h4 hc
  | shoot sid bt dir =>
    unfold applySessOp at h
    dsimp only at h
    cases hb : handleShootBulletBody fsqrt fdiv (g.id ++ "-" ++ r.id) r sid bt dir with
    | error e => rw [hb] at h; exact Except.noConfusion h
    | ok res =>
      rw [hb] at h
      simp only [Bind.bind, Except.bind] at h
      cases h
      rcases handleShootBulletBody_shape fsqrt fdiv _ r sid bt dir res.1 res.2 hb with
        ⟨hr, he⟩ | ⟨b, bl, pool, h1, h2, he, hid, h5, h6, h7, h8, h9, h10, h11, h12⟩
      · rw [hr]; exact hc
      · unfold bulletConserved at hc ⊢
        rw [h1, h2] at hc
        rw [h5, h6]
        cases hgl : pool.getLast? with
        | some b0 =>
          obtain ⟨hrec, halloc⟩ := h11 b0 hgl
          rw [halloc]
          refine List.Perm.trans ?_ hc
          have hpl := dropLast_append_getLast? pool b0 hgl
          conv_rhs => rw [← hpl]
          simp only [List.map_append, List.map_cons, List.map_nil]
          have : ((bl.map Bullet.recId ++ [b.recId]) ++
              pool.dropLast.map Bullet.recId).Perm
              (bl.map Bullet.recId ++ (pool.dropLast.map Bullet.recId ++ [b.recId])) := by
            rw [List.append_assoc]
            exact List.Perm.append_left _ List.perm_append_comm
          simpa [hrec] using this
        | none =>
          have hnil : pool = [] := by
            cases pool with
            | nil => rfl
            | cons a u => simp at hgl
          subst hnil
          obtain ⟨hrec, halloc⟩ := h12 hgl
          rw [halloc]
          simp only [List.append_nil] at hc ⊢
          simp only [List.dropLast_nil, List.append_nil, List.map_append,
            List.map_cons, List.map_nil, List.range_succ, hrec]
          exact List.Perm.append hc (List.Perm.refl _)
  | tick => exact (updateBullets_shape _ _ _ h).2.2.2 hc
  | endRoom => exact (endAgarIoRoom_shape _ _ _ h).2.2.2 hc

theorem runSessOps_ids (fsqrt : ℤ → ℤ) (fdiv : ℤ → ℤ → ℤ) (g : Game) (r : Room)
    (ops : List SessOp) (t : Game × Room × List Event)
    (h : runSessOps fsqrt fdiv g r ops = .ok t) :
    r.bulletIdCounter ≤ t.2.1.bulletIdCounter ∧
    (∀ i ∈ bulletCreatedIds t.2.2,
      r.bulletIdCounter ≤ i ∧ i < t.2.1.bulletIdCounter) ∧
    List.Chain' (· < ·) (bulletCreatedIds t.2.2) := by
  induction ops generalizing g r t with
  | nil =>
    cases h
    exact ⟨le_refl _, by simp [bulletCreatedIds], by simp [bulletCreatedIds]⟩
  | cons op rest ih =>
    unfold runSessOps at h
    cases ha : applySessOp fsqrt fdiv g r op with
    | error e => rw [ha] at h; exact Except.noConfusion h
    | ok t1 =>
      rw [ha] at h
      simp only [Bind.bind, Except.bind] at h
      cases hr : runSessOps fsqrt fdiv t1.1 t1.2.1 rest with
      | error e => rw [hr] at h; exact Except.noConfusion h
      | ok t2 =>
        rw [hr] at h
        cases h
        obtain ⟨hle2, hbound2, hchain2⟩ := ih t1.1 t1.2.1 t2 hr
        rcases applySessOp_ids _ _ _ _ _ _ ha with ⟨hids1, hcnt1⟩ | ⟨hids1, hcnt1⟩
        · refine ⟨hcnt1 ▸ hle2, ?_, ?_⟩
          · intro i hi
            rw [bulletCreatedIds_append, hids1, List.nil_append] at hi
            exact ⟨hcnt1 ▸ (hbound2 i hi).1, (hbound2 i hi).2⟩
          · rw [bulletCreatedIds_append, hids1, List.nil_append]
            exact hchain2
        · have hle1 : r.bulletIdCounter + 1 ≤ t2.2.1.bulletIdCounter := hcnt1 ▸ hle2
          refine ⟨le_trans (Nat.le_succ _) hle1, ?_, ?_⟩
          · intro i hi
            rw [bulletCreatedIds_append, hids1] at hi
            rcases List.mem_cons.mp hi with hi1 | hi2
            · subst hi1
              exact ⟨le_refl _, lt_of_lt_of_le (Nat.lt_succ_self _) hle1⟩
            · have hb2 := hbound2 i hi2
              have h1i : r.bulletIdCounter + 1 ≤ i := hcnt1 ▸ hb2.1
              exact ⟨by omega, hb2.2⟩
          · rw [bulletCreatedIds_append, hids1]
            refine List.chain'_cons'.mpr ⟨?_, hchain2⟩
            intro y hy
            have hym := hbound2 y (List.mem_of_mem_head? hy)
            have : r.bulletIdCounter + 1 ≤ y := hcnt1 ▸ hym.1
            omega

theorem runSessOps_conserved (fsqrt : ℤ → ℤ) (fdiv : ℤ → ℤ → ℤ) (g : Game)
    (r : Room) (ops : List SessOp) (t : Game × Room × List Event)
    (h : runSessOps fsqrt fdiv g r ops = .ok t) (hc : bulletConserved r) :
    bulletConserved t.2.1 := by
  induction ops generalizing g r t with
  | nil => cases h; exact hc
  | cons op rest ih =>
    unfold runSessOps at h
    cases ha : applySessOp fsqrt fdiv g r op with
    | error e => rw [ha] at h; exact Except.noConfusion h
    | ok t1 =>
      rw [ha] at h
      simp only [Bind.bind, Except.bind] at h
      cases hr : runSessOps fsqrt fdiv t1.1 t1.2.1 rest with
      | error e => rw [hr] at h; exact Except.noConfusion h
      | ok t2 =>
        rw [hr] at h
        cases h
        exact ih t1.1 t1.2.1 t2 hr (applySessOp_conserved _ _ _ _ _ _ ha hc)

/-- C8: "Within one session, every spawn assigns a projectile id strictly
greater than all ids previously issued, so ids are strictly increasing and
never reused; a recycled record receives a fresh id before re-entering the
live list."  Confirmed over arbitrary successful operation runs. -/
theorem C8_theorem (fsqrt : ℤ → ℤ) (fdiv : ℤ → ℤ → ℤ) (g : Game) (r : Room)
    (ops : List SessOp) (t : Game × Room × List Event)
    (h : runSessOps fsqrt fdiv g r ops = .ok t) :
    C8Post fsqrt fdiv r t := by
  refine ⟨runSessOps_ids fsqrt fdiv g r ops t h, ?_⟩
  intro channel r2 sid bt dir r3 b hsh
  rcases handleShootBulletBody_shape fsqrt fdiv channel r2 sid bt dir r3
      [Event.bulletCreated channel b] hsh with
    ⟨hr, he⟩ | ⟨b', bl, pool, h1, h2, he, hid, h5, h6, h7, h8, h9, h10, h11, h12⟩
  · exact absurd he (by simp)
  · have hbb : b = b' := by simpa using he
    subst hbb
    refine ⟨hid, h7, ?_⟩
    intro pool2 b0 hp2 hgl
    rw [h2] at hp2
    have hpe : pool = pool2 := Option.some.inj hp2
    subst hpe
    exact (h11 b0 hgl).1

/-- C8 witness: the one-shot fixture run satisfies the conclusion. -/
theorem C8_witness : C8Post (fun q => q) (fun a b => a / b) fxStarted fxShootResult :=
  C8_theorem (fun q => q) (fun a b => a / b) fxGame fxStarted fxShootOps
    fxShootResult (by decide)

/-- C9: "Projectile records are conserved: every allocated record is, at
all times outside a handler, in exactly one of the live list or the pool;
after draining at teardown the pool holds one record per allocation, and
acquire reuses a pooled record whenever one is available."  Confirmed over
arbitrary successful runs from a freshly started session. -/
theorem C9_theorem (fsqrt : ℤ → ℤ) (fdiv : ℤ → ℤ → ℤ)
    (spawnPos : String → ℤ × ℤ) (room0 : Room) (g : Game) (ops : List SessOp)
    (t : Game × Room × List Event)
    (h : runSessOps fsqrt fdiv g (startAgarIoRoom spawnPos room0) ops = .ok t) :
    C9Post fsqrt fdiv t := by
  have hc0 : bulletConserved (startAgarIoRoom spawnPos room0) := by
    simp [bulletConserved, startAgarIoRoom]
  have hcons := runSessOps_conserved _ _ _ _ _ _ h hc0
  refine ⟨hcons, ?_, ?_⟩
  · intro pl hb hp
    simp only [bulletConserved, hb, hp] at hcons
    have hlen := hcons.length_eq
    simpa using hlen
  · intro channel r2 sid bt dir r3 evs pool b0 hp2 hgl hsh
    rcases handleShootBulletBody_shape fsqrt fdiv channel r2 sid bt dir r3 evs
        hsh with
      ⟨hr, he⟩ | ⟨b', bl, pool', h1, h2, he, hid, h5, h6, h7, h8, h9, h10, h11, h12⟩
    · refine ⟨by rw [hr], ?_⟩
      intro b hbe
      rw [he] at hbe
      exact absurd hbe.symm (by simp)
    · rw [h2] at hp2
      have hpp : pool' = pool := Option.some.inj hp2
      subst hpp
      obtain ⟨hrec, halloc⟩ := h11 b0 hgl
      refine ⟨halloc, ?_⟩
      intro b hbe
      rw [he] at hbe
      injection hbe with hb1 hb2
      injection hb1 with hch hbv
      rw [← hbv]
      exact hrec

/-- C9 witness: the shoot–tick–end fixture run satisfies the conclusion. -/
theorem C9_witness : C9Post (fun q => q) (fun a b => a / b) fxC9Result :=
  C9_theorem (fun q => q) (fun a b => a / b) (fun _ => (100, 100)) fxLobby fxGame
    fxC9Ops fxC9Result (by decide)

/-! ## C10: the disconnect handler's active-room branch -/

theorem lookupAL_updateAL_ne {α : Type} (l : List (String × α)) (k k' : String)
    (v : α) (h : k' ≠ k) : lookupAL (updateAL l k v) k' = lookupAL l k' := by
  induction l with
  | nil => rfl
  | cons p rest ih =>
    by_cases hp : p.1 = k
    · rw [updateAL, if_pos hp, lookupAL_cons, lookupAL_cons]
      have h1 : ¬(k = k') := fun he => h he.symm
      have h2 : ¬(p.1 = k') := fun he => h (he ▸ hp.symm ▸ rfl)
      rw [if_neg h1, if_neg (hp ▸ h2)]
    · rw [updateAL, if_neg hp, lookupAL_cons, lookupAL_cons]
      by_cases hp' : p.1 = k'
      · rw [if_pos hp', if_pos hp']
      · rw [if_neg hp', if_neg hp', ih]

theorem lookupAL_eraseAL_ne {α : Type} (l : List (String × α)) (k k' : String)
    (h : k' ≠ k) : lookupAL (eraseAL l k) k' = lookupAL l k' := by
  induction l with
  | nil => rfl
  | cons p rest ih =>
    by_cases hp : p.1 = k
    · have h2 : ¬(p.1 = k') := fun he => h (he ▸ hp)
      simp only [eraseAL, List.filter_cons] at ih ⊢
      rw [if_neg (by simpa using hp)]
      rw [lookupAL_cons, if_neg h2]
      exact ih
    · simp only [eraseAL, List.filter_cons] at ih ⊢
      rw [if_pos (by simpa using hp)]
      rw [lookupAL_cons, lookupAL_cons]
      by_cases hp' : p.1 = k'
      · rw [if_pos hp', if_pos hp']
      · rw [if_neg hp', if_neg hp', ih]

theorem lookupAL_updateAL_found {α : Type} (l : List (String × α)) (k : String)
    (v w : α) (h : lookupAL l k = some w) :
    lookupAL (updateAL l k v) k = some v := by
  induction l with
  | nil => simp [lookupAL] at h
  | cons p rest ih =>
    by_cases hp : p.1 = k
    · rw [updateAL, if_pos hp, lookupAL_cons, if_pos rfl]
    · rw [lookupAL_cons, if_neg hp] at h
      rw [updateAL, if_neg hp, lookupAL_cons, if_neg hp]
      exact ih h

theorem lookupAL_some_key_mem {α : Type} (l : List (String × α)) (k : String)
    (v : α) (h : lookupAL l k = some v) : k ∈ l.map (·.1) := by
  induction l with
  | nil => simp [lookupAL] at h
  | cons p rest ih =>
    by_cases hp : p.1 = k
    · simp [hp.symm]
    · rw [lookupAL_cons, if_neg hp] at h
      simp only [List.map_cons, List.mem_cons]
      exact Or.inr (ih h)

theorem disconnectActiveStep_frame (sid : String)
    (st : Game × List (String × Room) × List Event) (rid : String) :
    (disconnectActiveStep sid st rid).1.rooms = st.1.rooms ∧
    (disconnectActiveStep sid st rid).1.id = st.1.id ∧
    (∃ ds, (disconnectActiveStep sid st rid).2.1 = st.2.1 ++ ds) ∧
    (∃ es, (disconnectActiveStep sid st rid).2.2 = st.2.2 ++ es ∧
      hasGameEnded es = false) := by
  unfold disconnectActiveStep
  dsimp only
  repeat' split
  · exact ⟨rfl, rfl, ⟨[], by simp⟩, ⟨[], by simp, rfl⟩⟩
  · exact ⟨rfl, rfl, ⟨[], by simp⟩, ⟨[], by simp, rfl⟩⟩
  · exact ⟨rfl, rfl, ⟨_, rfl⟩, ⟨_, rfl, rfl⟩⟩
  · exact ⟨rfl, rfl, ⟨[], by simp⟩, ⟨[], by simp, rfl⟩⟩

theorem disconnectActive_fold_frame (sid : String) (ks : List String)
    (st : Game × List (String × Room) × List Event) :
    (ks.foldl (disconnectActiveStep sid) st).1.rooms = st.1.rooms ∧
    (ks.foldl (disconnectActiveStep sid) st).1.id = st.1.id ∧
    (∃ ds, (ks.foldl (disconnectActiveStep sid) st).2.1 = st.2.1 ++ ds) ∧
    (∃ es, (ks.foldl (disconnectActiveStep sid) st).2.2 = st.2.2 ++ es ∧
      hasGameEnded es = false) := by
  induction ks generalizing st with
  | nil => exact ⟨rfl, rfl, ⟨[], by simp⟩, ⟨[], by simp, rfl⟩⟩
  | cons k rest ih =>
    obtain ⟨h1, h2, ⟨ds1, hd1⟩, ⟨es1, he1, hg1⟩⟩ := disconnectActiveStep_frame sid st k
    obtain ⟨h1', h2', ⟨ds2, hd2⟩, ⟨es2, he2, hg2⟩⟩ := ih (disconnectActiveStep sid st k)
    refine ⟨by rw [List.foldl_cons, h1', h1], by rw [List.foldl_cons, h2', h2],
      ⟨ds1 ++ ds2, by rw [List.foldl_cons, hd2, hd1, List.append_assoc]⟩,
      ⟨es1 ++ es2, by rw [List.foldl_cons, he2, he1, List.append_assoc], ?_⟩⟩
    simp only [hasGameEnded, List.any_append] at hg1 hg2 ⊢
    rw [hg1, hg2]
    rfl

theorem disconnectActiveStep_other (sid : String)
    (st : Game × List (String × Room) × List Event) (k rid : String)
    (h : rid ≠ k) :
    lookupAL (disconnectActiveStep sid st k).1.activeRooms rid =
      lookupAL st.1.activeRooms rid := by
  unfold disconnectActiveStep
  dsimp only
  repeat' split
  · rfl
  · rfl
  · exact lookupAL_eraseAL_ne _ _ _ h
  · exact lookupAL_updateAL_ne _ _ _ _ h

theorem disconnectActive_fold_other (sid : String) (ks : List String)
    (st : Game × List (String × Room) × List Event) (rid : String)
    (h : rid ∉ ks) :
    lookupAL (ks.foldl (disconnectActiveStep sid) st).1.activeRooms rid =
      lookupAL st.1.activeRooms rid := by
  induction ks generalizing st with
  | nil => rfl
  | cons k rest ih =>
    rw [List.foldl_cons]
    have hk : rid ≠ k := fun he => h (he ▸ List.mem_cons_self k rest)
    rw [ih _ (fun hm => h (List.mem_cons_of_mem _ hm))]
    exact disconnectActiveStep_other sid st k rid hk

/-- C10: the disconnect handler's active-room branch splices only the
session's `players` array and deletes the `activeRooms` entry when that
array empties; it never touches `playersMap`, `alivePlayers` or either
interval handle, and never emits `gameEnded` — a session deleted on this
path still has both periodic tasks running and the disconnected player
still counted as alive. -/
theorem C10_theorem (g : Game) (sid : String)
    (hnd : (keysAL g.activeRooms).Nodup) : C10Post g sid := by
  unfold C10Post disconnectActive
  obtain ⟨hrooms, hid, hds0, ⟨es, hes, hge⟩⟩ :=
    disconnectActive_fold_frame sid (g.activeRooms.map (·.1)) (g, [], [])
  refine ⟨hrooms, hid, ?_, ?_⟩
  · rw [hes]
    simpa [hasGameEnded, List.any_append] using hge
  · intro roomId r hr
    have hmem : roomId ∈ g.activeRooms.map (·.1) := lookupAL_some_key_mem _ _ _ hr
    obtain ⟨l1, l2, hsplit⟩ := List.append_of_mem hmem
    have hnd2 : (l1 ++ roomId :: l2).Nodup := by
      rw [← hsplit]; exact hnd
    obtain ⟨hnd1, hndc, hdisj⟩ := List.nodup_append.mp hnd2
    have hrid1 : roomId ∉ l1 := fun hm =>
      hdisj hm (List.mem_cons_self roomId l2)
    have hrid2 : roomId ∉ l2 := (List.nodup_cons.mp hndc).1
    rw [hsplit, List.foldl_append, List.foldl_cons]
    generalize hst1 : List.foldl (disconnectActiveStep sid) (g, [], []) l1 = st1
    have hlook1 : lookupAL st1.1.activeRooms roomId = some r := by
      rw [← hst1, disconnectActive_fold_other sid l1 _ roomId hrid1]
      exact hr
    constructor
    · intro hfind
      have hstep : disconnectActiveStep sid st1 roomId = st1 := by
        unfold disconnectActiveStep
        dsimp only
        simp only [hlook1, hfind]
      rw [hstep, disconnectActive_fold_other sid l2 _ roomId hrid2]
      exact hlook1
    · intro i hfind
      constructor
      · intro hne
        have hstep : disconnectActiveStep sid st1 roomId =
            ({ st1.1 with activeRooms := updateAL st1.1.activeRooms roomId { r with players := r.players.eraseIdx i } }, st1.2.1, st1.2.2) := by
          unfold disconnectActiveStep
          dsimp only
          simp only [hlook1, hfind]
          rw [if_neg]
          simpa [List.isEmpty_iff] using hne
        rw [hstep, disconnectActive_fold_other sid l2 _ roomId hrid2]
        exact lookupAL_updateAL_found _ _ _ _ hlook1
      · intro hemp
        have hstep : disconnectActiveStep sid st1 roomId =
            ({ st1.1 with activeRooms := eraseAL st1.1.activeRooms roomId }, st1.2.1 ++ [(roomId, { r with players := r.players.eraseIdx i })], st1.2.2 ++ [Event.roomsList st1.1.id]) := by
          unfold disconnectActiveStep
          dsimp only
          simp only [hlook1, hfind]
          rw [if_pos]
          simpa [List.isEmpty_iff] using hemp
        rw [hstep]
        obtain ⟨hfr, hfi, ⟨ds2, hd2⟩, hfe⟩ :=
          disconnectActive_fold_frame sid l2
            ({ st1.1 with activeRooms := eraseAL st1.1.activeRooms roomId }, st1.2.1 ++ [(roomId, { r with players := r.players.eraseIdx i })], st1.2.2 ++ [Event.roomsList st1.1.id])
        refine ⟨?_, ?_, rfl, rfl, rfl, rfl⟩
        · rw [disconnectActive_fold_other sid l2 _ roomId hrid2]
          exact lookupAL_eraseAL_self _ _
        · rw [hd2]
          refine List.mem_append_left _ ?_
          exact List.mem_append_right _ (List.mem_singleton.mpr rfl)

/-- C10 witness: the statement at the fixture game, disconnecting `s1`. -/
theorem C10_witness : C10Post fxGame "s1" :=
  C10_theorem fxGame "s1" (by decide)

/-! ## C2: the empty-room invariant of the lobby registry -/

theorem keysAL_updateAL {α : Type} (l : List (String × α)) (k : String) (v : α) :
    keysAL (updateAL l k v) = keysAL l := by
  induction l with
  | nil => rfl
  | cons p rest ih =>
    by_cases hp : p.1 = k
    · simp [updateAL, hp, keysAL]
    · simp [updateAL, hp, keysAL] at ih ⊢
      exact ih

theorem mem_updateAL {α : Type} (l : List (String × α)) (k : String) (v : α)
    (e : String × α) (he : e ∈ l) :
    e ∈ updateAL l k v ∨ (e.1 = k ∧ lookupAL l k = some e.2) := by
  induction l with
  | nil => cases he
  | cons p rest ih =>
    by_cases hp : p.1 = k
    · rcases List.mem_cons.mp he with he1 | he2
      · subst he1
        exact Or.inr ⟨hp, by rw [lookupAL_cons, if_pos hp]⟩
      · rw [updateAL, if_pos hp]
        exact Or.inl (List.mem_cons_of_mem _ he2)
    · rcases List.mem_cons.mp he with he1 | he2
      · subst he1
        rw [updateAL, if_neg hp]
        exact Or.inl (List.mem_cons_self _ _)
      · rcases ih he2 with h1 | h2
        · rw [updateAL, if_neg hp]
          exact Or.inl (List.mem_cons_of_mem _ h1)
        · rw [lookupAL_cons, if_neg hp]
          exact Or.inr h2

theorem mem_updateAL_found {α : Type} (l : List (String × α)) (k : String)
    (v w : α) (h : lookupAL l k = some v) : (k, w) ∈ updateAL l k w := by
  induction l with
  | nil => simp [lookupAL] at h
  | cons p rest ih =>
    by_cases hp : p.1 = k
    · rw [updateAL, if_pos hp]
      exact List.mem_cons_self _ _
    · rw [lookupAL_cons, if_neg hp] at h
      rw [updateAL, if_neg hp]
      exact List.mem_cons_of_mem _ (ih h)

theorem mem_keysAL_eraseAL {α : Type} (l : List (String × α)) (k s : String) :
    s ∈ keysAL (eraseAL l k) ↔ s ∈ keysAL l ∧ s ≠ k := by
  simp only [keysAL, eraseAL, List.mem_map]
  constructor
  · rintro ⟨p, hp, rfl⟩
    obtain ⟨hpl, hpk⟩ := List.mem_filter.mp hp
    exact ⟨⟨p, hpl, rfl⟩, by simpa using hpk⟩
  · rintro ⟨⟨p, hpl, rfl⟩, hne⟩
    exact ⟨p, List.mem_filter.mpr ⟨hpl, by simpa using hne⟩, rfl⟩

theorem nodup_keysAL_eraseAL {α : Type} (l : List (String × α)) (k : String)
    (h : (keysAL l).Nodup) : (keysAL (eraseAL l k)).Nodup :=
  h.sublist ((List.filter_sublist _).map _)

theorem nodup_keysAL_append_one {α : Type} (l : List (String × α)) (k : String)
    (v : α) (h : (keysAL l).Nodup) (hk : k ∉ keysAL l) :
    (keysAL (l ++ [(k, v)])).Nodup := by
  simp only [keysAL, List.map_append, List.map_cons, List.map_nil]
  rw [List.nodup_append]
  exact ⟨h, List.nodup_singleton _, by
    intro a ha hb
    simp only [List.mem_singleton] at hb
    subst hb
    exact hk ha⟩

theorem anyEmptyRoom_iff (g : Game) :
    anyEmptyRoom g = true ↔ ∃ e ∈ g.rooms, e.2.players = [] := by
  simp [anyEmptyRoom, List.any_eq_true, List.isEmpty_iff]

theorem ensure_anyEmpty (f : Nat → String) (k : Nat) (g : Game) :
    anyEmptyRoom (ensureSingleEmptyRoom f k g).1 = true := by
  unfold ensureSingleEmptyRoom
  split
  · next h => simpa [anyEmptyRoom] using h
  · simp [anyEmptyRoom, mkEmptyRoom]

theorem ensure_cases (f : Nat → String) (k : Nat) (g : Game) :
    ((ensureSingleEmptyRoom f k g).1 = g ∧ (ensureSingleEmptyRoom f k g).2 = k) ∨
    ((ensureSingleEmptyRoom f k g).1 =
        { g with rooms := g.rooms ++ [(f k, mkEmptyRoom (f k))] } ∧
      (ensureSingleEmptyRoom f k g).2 = k + 1) := by
  unfold ensureSingleEmptyRoom
  split
  · exact Or.inl ⟨rfl, rfl⟩
  · exact Or.inr ⟨rfl, rfl⟩

theorem exists_other_empty (rooms : List (String × Room)) (k1 : String)
    (hnd : (keysAL rooms).Nodup)
    (hcount : 1 < (rooms.filter (fun p => p.2.players.isEmpty)).length) :
    ∃ e ∈ rooms, e.2.players = [] ∧ e.1 ≠ k1 := by
  have hndE : ((rooms.filter (fun p => p.2.players.isEmpty)).map (·.1)).Nodup :=
    hnd.sublist ((List.filter_sublist _).map _)
  by_contra hno
  push_neg at hno
  cases hE : rooms.filter (fun p => p.2.players.isEmpty) with
  | nil => rw [hE] at hcount; simp at hcount
  | cons e1 rest =>
    cases rest with
    | nil => rw [hE] at hcount; simp at hcount
    | cons e2 rest2 =>
      have he1 := List.mem_filter.mp (hE ▸ List.mem_cons_self e1 (e2 :: rest2))
      have he2 := List.mem_filter.mp
        (hE ▸ List.mem_cons_of_mem e1 (List.mem_cons_self e2 rest2))
      have hk1 : e1.1 = k1 :=
        hno e1 he1.1 (by simpa [List.isEmpty_iff] using he1.2)
      have hk2 : e2.1 = k1 :=
        hno e2 he2.1 (by simpa [List.isEmpty_iff] using he2.2)
      rw [hE] at hndE
      simp only [List.map_cons, List.nodup_cons, List.mem_cons] at hndE
      exact hndE.1 (Or.inl (hk1.trans hk2.symm))

theorem joinRoom_inv (f : Nat → String) (k : Nat) (sid : String)
    (userName sockUserName : Option String) (roomId : String) (g : Game)
    (hne : anyEmptyRoom g = true) :
    anyEmptyRoom (joinRoom f k sid userName sockUserName roomId g).1 = true := by
  unfold joinRoom
  split
  · exact hne
  · next room heq =>
    split
    · exact hne
    · dsimp only
      split
      · exact ensure_anyEmpty _ _ _
      · next hlen =>
        obtain ⟨e, he, hee⟩ := (anyEmptyRoom_iff g).mp hne
        rcases mem_updateAL g.rooms roomId
            { room with players := room.players ++
              [{ socketId := sid,
                 userName := jsOrStr userName (jsOrStr sockUserName "Unknown"),
                 isReady := false }] } e he with h1 | ⟨hk, hv⟩
        · exact (anyEmptyRoom_iff _).mpr ⟨e, h1, hee⟩
        · rw [heq] at hv
          have : e.2 = room := Option.some.inj hv.symm
          rw [this] at hee
          exact absurd (by simp [hee]) hlen

theorem leaveRoom_inv (sid roomId : String) (g : Game)
    (hne : anyEmptyRoom g = true) (hnd : (keysAL g.rooms).Nodup) :
    anyEmptyRoom (leaveRoom sid roomId g).1 = true ∧
    ∀ d ∈ (leaveRoom sid roomId g).2, d.2.players = [] ∧
      d.1 ∉ keysAL (leaveRoom sid roomId g).1.rooms := by
  unfold leaveRoom
  split
  · exact ⟨hne, by intro d hd; cases hd⟩
  · next room heq =>
    dsimp only
    split
    · next hcond =>
      rw [Bool.and_eq_true, decide_eq_true_eq] at hcond
      have hnd' : (keysAL (updateAL g.rooms roomId
          { room with players := room.players.filter (fun p => p.socketId ≠ sid) })).Nodup := by
        rw [keysAL_updateAL]; exact hnd
      obtain ⟨e, he, hee, hek⟩ := exists_other_empty _ roomId hnd' hcond.2
      constructor
      · refine (anyEmptyRoom_iff _).mpr ⟨e, ?_, hee⟩
        exact List.mem_filter.mpr ⟨he, by simpa using hek⟩
      · intro d hd
        rcases List.mem_singleton.mp hd with rfl
        refine ⟨by simpa [List.isEmpty_iff] using hcond.1, ?_⟩
        intro hmem
        exact ((mem_keysAL_eraseAL _ _ _).mp hmem).2 rfl
    · next hcond =>
      refine ⟨?_, by intro d hd; cases hd⟩
      by_cases hre : (room.players.filter (fun p => p.socketId ≠ sid)) = []
      · refine (anyEmptyRoom_iff _).mpr
          ⟨(roomId, { room with players := room.players.filter (fun p => p.socketId ≠ sid) }),
           mem_updateAL_found _ _ _ _ heq, by simpa using hre⟩
      · obtain ⟨e, he, hee⟩ := (anyEmptyRoom_iff g).mp hne
        rcases mem_updateAL g.rooms roomId
            { room with players := room.players.filter (fun p => p.socketId ≠ sid) }
            e he with h1 | ⟨hk, hv⟩
        · exact (anyEmptyRoom_iff _).mpr ⟨e, h1, hee⟩
        · rw [heq] at hv
          have he2 : e.2 = room := Option.some.inj hv.symm
          rw [he2] at hee
          rw [hee] at hre
          exact absurd rfl hre

theorem disconnectLobbyStep_inv (f : Nat → String) (K : List String)
    (sid roomId : String) (st : Game × Nat × List (String × Room))
    (hinj : ∀ m n, f m = f n → m = n) (hfK : ∀ n, f n ∉ K)
    (hroom : roomId ∈ K) (hinv : lobbyInv f K st) :
    lobbyInv f K (disconnectLobbyStep f sid st roomId) := by
  obtain ⟨hne, hnd, hkeys, hdels⟩ := hinv
  unfold disconnectLobbyStep
  dsimp only
  split
  · exact ⟨hne, hnd, hkeys, hdels⟩
  · next room heq =>
    split
    · exact ⟨hne, hnd, hkeys, hdels⟩
    · next i hidx =>
      split
      · next hcond =>
        rw [Bool.and_eq_true, decide_eq_true_eq] at hcond
        have hre : room.players.eraseIdx i = [] := List.isEmpty_iff.mp hcond.1
        have hndE : (keysAL (eraseAL (updateAL st.1.rooms roomId
            { room with players := room.players.eraseIdx i }) roomId)).Nodup :=
          nodup_keysAL_eraseAL _ _ (by rw [keysAL_updateAL]; exact hnd)
        have hkeysE : ∀ key ∈ keysAL (eraseAL (updateAL st.1.rooms roomId
            { room with players := room.players.eraseIdx i }) roomId),
            key ∈ K ∨ ∃ n, n < st.2.1 ∧ key = f n := by
          intro key hk
          obtain ⟨hk1, _⟩ := (mem_keysAL_eraseAL _ _ _).mp hk
          rw [keysAL_updateAL] at hk1
          exact hkeys key hk1
        have hfE : ∀ n, st.2.1 ≤ n → f n ∉ keysAL (eraseAL (updateAL st.1.rooms roomId
            { room with players := room.players.eraseIdx i }) roomId) := by
          intro n hn hmem
          rcases hkeysE _ hmem with h1 | ⟨m, hm, hfm⟩
          · exact hfK n h1
          · have := hinj n m hfm
            omega
        have hdelsE : ∀ d ∈ st.2.2 ++ [(roomId,
            { room with players := room.players.eraseIdx i })],
            d.2.players = [] ∧
            d.1 ∉ keysAL (eraseAL (updateAL st.1.rooms roomId
              { room with players := room.players.eraseIdx i }) roomId) ∧
            d.1 ∈ K := by
          intro d hd
          rcases List.mem_append.mp hd with hdo | hdn
          · obtain ⟨hp, hnk, hK⟩ := hdels d hdo
            refine ⟨hp, ?_, hK⟩
            intro hmem
            obtain ⟨hk1, _⟩ := (mem_keysAL_eraseAL _ _ _).mp hmem
            rw [keysAL_updateAL] at hk1
            exact hnk hk1
          · rcases List.mem_singleton.mp hdn with rfl
            refine ⟨hre, ?_, hroom⟩
            intro hmem
            exact ((mem_keysAL_eraseAL _ _ _).mp hmem).2 rfl
        refine ⟨ensure_anyEmpty _ _ _, ?_⟩
        rcases ensure_cases f st.2.1
            { st.1 with rooms := eraseAL (updateAL st.1.rooms roomId
              { room with players := room.players.eraseIdx i }) roomId }
          with ⟨hg, hk⟩ | ⟨hg, hk⟩
        · rw [hg, hk]
          exact ⟨hndE, hkeysE, hdelsE⟩
        · rw [hg, hk]
          refine ⟨?_, ?_, ?_⟩
          · exact nodup_keysAL_append_one _ _ _ hndE (hfE st.2.1 le_rfl)
          · intro key hk2
            rw [keysAL, List.map_append] at hk2
            rcases List.mem_append.mp hk2 with h1 | h2
            · rcases hkeysE key h1 with hK | ⟨n, hn, hfn⟩
              · exact Or.inl hK
              · exact Or.inr ⟨n, Nat.lt_succ_of_lt hn, hfn⟩
            · simp only [List.map_cons, List.map_nil, List.mem_singleton] at h2
              exact Or.inr ⟨st.2.1, Nat.lt_succ_self _, h2⟩
          · intro d hd
            obtain ⟨hp, hnkE, hK⟩ := hdelsE d hd
            refine ⟨hp, ?_, hK⟩
            intro hmem
            rw [keysAL, List.map_append] at hmem
            rcases List.mem_append.mp hmem with h1 | h2
            · exact hnkE h1
            · simp only [List.map_cons, List.map_nil, List.mem_singleton] at h2
              rw [h2] at hK
              exact hfK _ hK
      · refine ⟨?_, ?_, ?_, ?_⟩
        · obtain ⟨e, he, hee⟩ := (anyEmptyRoom_iff _).mp hne
          rcases mem_updateAL st.1.rooms roomId
              { room with players := room.players.eraseIdx i } e he with h1 | ⟨_, hv⟩
          · exact (anyEmptyRoom_iff _).mpr ⟨e, h1, hee⟩
          · rw [heq] at hv
            have he2 : e.2 = room := Option.some.inj hv.symm
            rw [he2] at hee
            rw [hee] at hidx
            simp at hidx
        · rw [keysAL_updateAL]
          exact hnd
        · intro key hk2
          rw [keysAL_updateAL] at hk2
          exact hkeys key hk2
        · intro d hd
          obtain ⟨hp, hnk, hK⟩ := hdels d hd
          refine ⟨hp, ?_, hK⟩
          rw [keysAL_updateAL]
          exact hnk

theorem disconnectLobby_fold_inv (f : Nat → String) (K : List String)
    (sid : String) (hinj : ∀ m n, f m = f n → m = n) (hfK : ∀ n, f n ∉ K)
    (L : List String) (hL : ∀ r ∈ L, r ∈ K)
    (st : Game × Nat × List (String × Room)) (hinv : lobbyInv f K st) :
    lobbyInv f K (L.foldl (disconnectLobbyStep f sid) st) := by
  induction L generalizing st with
  | nil => exact hinv
  | cons r rest ih =>
    rw [List.foldl_cons]
    exact ih (fun x hx => hL x (List.mem_cons_of_mem _ hx)) _
      (disconnectLobbyStep_inv f K sid r st hinj hfK (hL r (List.mem_cons_self _ _)) hinv)

/-- C2: after any registry mutation on a GameType — a join, a leave, or
the lobby branch of a disconnect — at least one lobby room with zero
occupants exists, and every room the mutation deleted was empty at
deletion time, is gone from the registry, and at least one other empty
room (under a different key) remains.  Hypotheses: the invariant held
before the mutation (some room empty, room keys distinct) and the
fresh-id supply used by `ensureSingleEmptyRoom` is injective and avoids
the keys already present. -/
theorem C2_theorem (f : Nat → String) (k : Nat) (g : Game) (op : RegOp)
    (hne : anyEmptyRoom g = true) (hnd : (keysAL g.rooms).Nodup)
    (hfK : ∀ n, f n ∉ keysAL g.rooms) (hinj : ∀ m n, f m = f n → m = n) :
    C2Post f k g op := by
  unfold C2Post
  cases op with
  | join sid userName sockUserName roomId =>
    refine ⟨joinRoom_inv f k sid userName sockUserName roomId g hne, ?_⟩
    intro d hd
    simp only [applyRegOp] at hd
    cases hd
  | leave sid roomId =>
    obtain ⟨h1, h2⟩ := leaveRoom_inv sid roomId g hne hnd
    refine ⟨h1, ?_⟩
    intro d hd
    have hd' : d ∈ (leaveRoom sid roomId g).2 := hd
    obtain ⟨hp, hnk⟩ := h2 d hd'
    refine ⟨hp, hnk, ?_⟩
    obtain ⟨e, he, hee⟩ := (anyEmptyRoom_iff _).mp h1
    refine ⟨e, he, hee, ?_⟩
    intro hq
    exact hnk (hq ▸ List.mem_map_of_mem _ he)
  | disconnect sid =>
    have hinv0 : lobbyInv f (keysAL g.rooms) (g, k, []) :=
      ⟨hne, hnd, fun key hk2 => Or.inl hk2,
       fun d hd => absurd hd (List.not_mem_nil d)⟩
    have hfold : lobbyInv f (keysAL g.rooms)
        ((keysAL g.rooms).foldl (disconnectLobbyStep f sid) (g, k, [])) :=
      disconnectLobby_fold_inv f (keysAL g.rooms) sid hinj hfK
        (keysAL g.rooms) (fun r hr => hr) (g, k, []) hinv0
    obtain ⟨h1, _, _, h4⟩ := hfold
    refine ⟨h1, ?_⟩
    intro d hd
    obtain ⟨hp, hnk, _⟩ := h4 d hd
    refine ⟨hp, hnk, ?_⟩
    obtain ⟨e, he, hee⟩ := (anyEmptyRoom_iff _).mp h1
    refine ⟨e, he, hee, ?_⟩
    intro hq
    exact hnk (hq ▸ List.mem_map_of_mem _ he)

theorem fxFresh_inj (m n : Nat) (h : fxFresh m = fxFresh n) : m = n := by
  have h3 := congrArg (fun s => s.data) h
  simp only [fxFresh] at h3
  have h2 : (List.replicate (m + 1) 'f').length = (List.replicate (n + 1) 'f').length := by
    rw [h3]
  simp only [List.length_replicate] at h2
  omega

theorem fxFresh_not_mem (n : Nat) : fxFresh n ∉ keysAL fxReg.rooms := by
  intro hmem
  have hhead : (fxFresh n).data.head? = some 'f' := by
    simp [fxFresh, List.replicate_succ]
  simp only [fxReg, keysAL, List.map_cons, List.map_nil, List.mem_cons,
    List.not_mem_nil, or_false] at hmem
  rcases hmem with h | h | h
  · rw [h] at hhead
    exact absurd hhead (by decide)
  · rw [h] at hhead
    exact absurd hhead (by decide)
  · rw [h] at hhead
    exact absurd hhead (by decide)

/-- C2 instantiated: in the three-room registry fixture, the occupant of
room `ra` leaving preserves the empty-room invariant and the deletion
guard. -/
theorem C2_witness : C2Post fxFresh 0 fxReg (RegOp.leave "s1" "ra") :=
  C2_theorem fxFresh 0 fxReg (RegOp.leave "s1" "ra") (by decide) (by decide)
    fxFresh_not_mem fxFresh_inj
